import Mathlib

/-!
Verification development for the Alaris runtime core.

Shallow embedding of the four core components of the repository
(`src/quantlib/ipc/shared_memory.cpp`, `src/quantlib/core/task_scheduler.cpp`,
`src/quantlib/core/memory_pool.cpp`, `src/quantlib/core/event_log.cpp`)
together with proofs of the spec-level properties about them.

Modelling conventions:
* C++ `uint64_t` indices and counters are modelled as unbounded `Nat`.
  The ring-buffer indices only ever grow by one (or by a batch count) per
  operation and the code computes their difference with `uint64_t`
  subtraction; since the proven invariant keeps the true difference below
  the capacity (far below `2^64`), wraparound modulo `2^64` computes
  the same difference, so the `Nat` model agrees with the machine on every
  reachable state.
* `double` arithmetic in the scheduler (utilization sums) is modelled with
  exact rationals `ℚ`; the operands are integral tick counts.
* Shared-memory mapping, file descriptors and the OS are outside the
  embedding; where an operation can observe an OS failure (`mmap`) the
  model takes the outcome from an explicit oracle in the state.
-/

namespace Alaris

namespace IPC

/-- Shared ring-buffer header, `SharedRingBuffer<T,Size>::Header`
(`shared_ring_buffer.h`): two monotone indices plus stats counters,
all `std::atomic<uint64_t>` initialised to zero. -/
structure Header where
  write_index : Nat
  read_index : Nat
  total_writes : Nat
  total_reads : Nat
  contention_events : Nat
  max_queue_depth : Nat
deriving Repr, DecidableEq

/-- Full state of one `SharedRingBuffer<T,Size>` object: the shared header,
the slot array (slot `k` for `k < Size`; modelled as a total function), and
the two per-object `mutable uint64_t` starvation counters. -/
structure RingState (T : Type) where
  header : Header
  slots : Nat → T
  consecutive_empty_reads : Nat
  consecutive_full_writes : Nat

/-- Owner-side initial state: the header is value-initialised to all zeros
and every slot is placement-new default-constructed
(`shared_memory.cpp:101-111`). -/
def initRing (T : Type) [Inhabited T] : RingState T :=
  { header := { write_index := 0, read_index := 0, total_writes := 0,
                total_reads := 0, contention_events := 0, max_queue_depth := 0 }
    slots := fun _ => default
    consecutive_empty_reads := 0
    consecutive_full_writes := 0 }

/-- Model of `SharedRingBuffer::size` (`shared_memory.cpp:311-318`): current depth
`write_index - read_index` (for the non-null-header case). -/
def ringSize (s : RingState T) : Nat :=
  s.header.write_index - s.header.read_index

/-- Model of `update_metrics_on_write` (`shared_memory.cpp:411-423`): bump
`total_writes` and raise `max_queue_depth` to the current depth via the
CAS loop (the loop computes `max` of the old value and `size()`). -/
def update_metrics_on_write (s : RingState T) : RingState T :=
  let h := s.header
  let h := { h with total_writes := h.total_writes + 1 }
  let depth := h.write_index - h.read_index
  { s with header := { h with max_queue_depth := max h.max_queue_depth depth } }

/-- Model of `update_metrics_on_read` (`shared_memory.cpp:425-429`). -/
def update_metrics_on_read (s : RingState T) : RingState T :=
  { s with header := { s.header with total_reads := s.header.total_reads + 1 } }

/-- Model of `update_metrics_on_contention` (`shared_memory.cpp:431-434`). -/
def update_metrics_on_contention (s : RingState T) : RingState T :=
  { s with header := { s.header with contention_events := s.header.contention_events + 1 } }

/-- Model of `SharedRingBuffer::try_write` (`shared_memory.cpp:170-203`), non-null
header path. The slot index `write_index & MASK` is `write_index % Size`
because `Size` is a power of two. -/
def try_write (Size : Nat) (s : RingState T) (item : T) : Bool × RingState T :=
  let w := s.header.write_index
  let r := s.header.read_index
  if Size ≤ w - r then
    (false, update_metrics_on_contention
      { s with consecutive_full_writes := s.consecutive_full_writes + 1 })
  else
    let slot := w % Size
    let s := { s with consecutive_full_writes := 0,
                      slots := fun k => if k = slot then item else s.slots k,
                      header := { s.header with write_index := w + 1 } }
    (true, update_metrics_on_write s)

/-- Model of `SharedRingBuffer::try_read` (`shared_memory.cpp:205-238`), non-null
header path; the `bool` result plus out-parameter is modelled as
`Option T`. -/
def try_read (Size : Nat) (s : RingState T) : Option T × RingState T :=
  let r := s.header.read_index
  let w := s.header.write_index
  if r = w then
    (none, { s with consecutive_empty_reads := s.consecutive_empty_reads + 1 })
  else
    let item := s.slots (r % Size)
    let s := { s with consecutive_empty_reads := 0,
                      header := { s.header with read_index := r + 1 } }
    (some item, update_metrics_on_read s)

/-- Slot-array effect of the batch-write loop (`shared_memory.cpp:259-264`):
item `i` of the batch goes to slot `(write_index + i) % Size`, in loop
order. -/
def writeSlots (Size : Nat) (slots : Nat → T) (base : Nat) : List T → Nat → T
  | [], k => slots k
  | item :: rest, k =>
      writeSlots Size (fun j => if j = base % Size then item else slots j) (base + 1) rest k

/-- Model of `SharedRingBuffer::try_write_batch` (`shared_memory.cpp:240-274`),
non-null header path; the `count` items are passed as a list. Returns the
number actually written. Note the batch path bumps `total_writes` by the
transferred count but does not touch `max_queue_depth`. -/
def try_write_batch (Size : Nat) (s : RingState T) (items : List T) : Nat × RingState T :=
  if items.length = 0 then (0, s)
  else
    let w := s.header.write_index
    let r := s.header.read_index
    let available_slots := Size - (w - r)
    let num_to_write := min items.length available_slots
    if num_to_write = 0 then
      (0, update_metrics_on_contention
        { s with consecutive_full_writes := s.consecutive_full_writes + 1 })
    else
      (num_to_write,
        { s with consecutive_full_writes := 0,
                 slots := writeSlots Size s.slots w (items.take num_to_write),
                 header := { s.header with write_index := w + num_to_write,
                                           total_writes := s.header.total_writes + num_to_write } })

/-- Model of `SharedRingBuffer::try_read_batch` (`shared_memory.cpp:276-309`),
non-null header path; the filled output array is returned as a list. -/
def try_read_batch (Size : Nat) (s : RingState T) (count : Nat) : List T × RingState T :=
  if count = 0 then ([], s)
  else
    let r := s.header.read_index
    let w := s.header.write_index
    let available_items := w - r
    let num_to_read := min count available_items
    if num_to_read = 0 then
      ([], { s with consecutive_empty_reads := s.consecutive_empty_reads + 1 })
    else
      ((List.range num_to_read).map (fun i => s.slots ((r + i) % Size)),
        { s with consecutive_empty_reads := 0,
                 header := { s.header with read_index := r + num_to_read,
                                           total_reads := s.header.total_reads + num_to_read } })

/-- Model of `SharedRingBuffer::reset_tta_metrics` (`shared_memory.cpp:383-394`):
zeroes the four stats counters and the two starvation counters, leaving
`write_index` and `read_index` untouched. -/
def reset_tta_metrics (s : RingState T) : RingState T :=
  { s with header := { s.header with total_writes := 0, total_reads := 0,
                                     contention_events := 0, max_queue_depth := 0 }
           consecutive_empty_reads := 0
           consecutive_full_writes := 0 }

/-- One buffer operation of the SPSC interface. -/
inductive RBOp (T : Type) where
  | write (item : T)
  | read
  | writeBatch (items : List T)
  | readBatch (count : Nat)
  | resetMetrics

/-- Ghost-instrumented step: apply one operation and extend the history of
successfully written records (`ws`) and successfully read records (`rs`). -/
def applyOpTr (Size : Nat) :
    RingState T × List T × List T → RBOp T → RingState T × List T × List T
  | (s, ws, rs), .write item =>
      let out := try_write Size s item
      (out.2, if out.1 then ws ++ [item] else ws, rs)
  | (s, ws, rs), .read =>
      let out := try_read Size s
      (out.2, ws, match out.1 with | some x => rs ++ [x] | none => rs)
  | (s, ws, rs), .writeBatch items =>
      let out := try_write_batch Size s items
      (out.2, ws ++ items.take out.1, rs)
  | (s, ws, rs), .readBatch count =>
      let out := try_read_batch Size s count
      (out.2, ws, rs ++ out.1)
  | (s, ws, rs), .resetMetrics => (reset_tta_metrics s, ws, rs)

/-- Run a sequence of operations from the fresh owner-created buffer,
keeping the write/read histories. -/
def runTr (T : Type) [Inhabited T] (Size : Nat) (ops : List (RBOp T)) :
    RingState T × List T × List T :=
  ops.foldl (applyOpTr Size) (initRing T, [], [])

/-- Run a sequence of operations from the fresh buffer, state only. -/
def runState (T : Type) [Inhabited T] (Size : Nat) (ops : List (RBOp T)) : RingState T :=
  (runTr T Size ops).1

/-- An operation sequence that never calls `reset_tta_metrics`. -/
def NoReset : List (RBOp T) → Prop
  | [] => True
  | .resetMetrics :: _ => False
  | _ :: rest => NoReset rest

instance : DecidablePred (@NoReset T) := by
  intro l
  induction l with
  | nil => exact isTrue trivial
  | cons op rest ih =>
      cases op with
      | write item => exact ih
      | read => exact ih
      | writeBatch items => exact ih
      | readBatch count => exact ih
      | resetMetrics => exact isFalse (fun h => h)

/-- Two positions of the unbounded index stream that are distinct but less
than the capacity apart occupy different slots. -/
theorem mod_ne_of_sub_lt {i w n : Nat} (hlt : i < w) (hsub : w - i < n) :
    i % n ≠ w % n := by
  intro h
  have hdvd : n ∣ w - i := (Nat.modEq_iff_dvd' (le_of_lt hlt)).1 h
  have hpos : 0 < w - i := Nat.sub_pos_of_lt hlt
  have := Nat.le_of_dvd hpos hdvd
  omega

/-- A slot not targeted by any write of the batch keeps its value. -/
theorem writeSlots_not_hit (Size : Nat) (items : List T) (slots : Nat → T) (base k : Nat)
    (hk : ∀ m, base ≤ m → m < base + items.length → m % Size ≠ k) :
    writeSlots Size slots base items k = slots k := by
  induction items generalizing slots base with
  | nil => rfl
  | cons item rest ih =>
      rw [writeSlots]
      rw [ih _ _ (fun m hm1 hm2 =>
        hk m (by omega) (by simp only [List.length_cons] at hm2 ⊢; omega))]
      have h0 : base % Size ≠ k := hk base (Nat.le_refl base) (by simp)
      exact if_neg (fun h => h0 h.symm)

/-- The slot targeted by write `j` of the batch ends up holding item `j`,
provided no later write of the batch targets the same slot. -/
theorem writeSlots_hit (Size : Nat) (items : List T) (slots : Nat → T) (base : Nat)
    (j : Nat) (hj : j < items.length)
    (hlater : ∀ j2, j < j2 → j2 < items.length → (base + j2) % Size ≠ (base + j) % Size) :
    some (writeSlots Size slots base items ((base + j) % Size)) = items[j]? := by
  induction items generalizing slots base j with
  | nil => simp at hj
  | cons item rest ih =>
      cases j with
      | zero =>
          rw [writeSlots, writeSlots_not_hit]
          · simp
          · intro m hm1 hm2
            have hrep : m = base + (m - base) := by omega
            rw [hrep]
            refine hlater (m - base) (by omega) ?_
            simp only [List.length_cons] at hm2 ⊢
            omega
      | succ j2 =>
          rw [writeSlots]
          have hrw : base + (j2 + 1) = (base + 1) + j2 := by omega
          rw [hrw, List.getElem?_cons_succ]
          exact ih (fun x => if x = base % Size then item else slots x) (base + 1) j2
            (by simpa using Nat.lt_of_succ_lt_succ hj)
            (by intro j3 hj3 hj3len
                have h1 : (base + 1) + j3 = base + (j3 + 1) := by omega
                have h2 : (base + 1) + j2 = base + (j2 + 1) := by omega
                rw [h1, h2]
                exact hlater (j3 + 1) (by omega)
                  (by simp only [List.length_cons] at hj3len ⊢; omega))

/-- The inductive invariant tying the concrete buffer state to the ghost
histories: indices are ordered and at most `Size` apart, the write history
has length `write_index`, the read history is the `read_index`-prefix of
the write history, and every pending slot holds the record of its
sequence position. -/
structure RingInv (Size : Nat) (s : RingState T) (ws rs : List T) : Prop where
  r_le_w : s.header.read_index ≤ s.header.write_index
  depth_le : s.header.write_index - s.header.read_index ≤ Size
  ws_len : ws.length = s.header.write_index
  rs_eq : rs = ws.take s.header.read_index
  slots_inv : ∀ i, s.header.read_index ≤ i → i < s.header.write_index →
    ws[i]? = some (s.slots (i % Size))

/-- Appending the block of records at positions `r..r+n-1` to the
`r`-prefix gives the `(r+n)`-prefix. -/
theorem take_append_block (ws out : List T) (r n : Nat)
    (hrn : r + n ≤ ws.length) (hlen : out.length = n)
    (hval : ∀ j, j < n → out[j]? = ws[r + j]?) :
    ws.take r ++ out = ws.take (r + n) := by
  have htl : (ws.take r).length = r := by
    simp only [List.length_take]
    omega
  apply List.ext_getElem?
  intro i
  rcases lt_or_ge i r with h1 | h1
  · rw [List.getElem?_append_left (by rw [htl]; exact h1)]
    rw [List.getElem?_take, List.getElem?_take, if_pos h1, if_pos (by omega)]
  · rw [List.getElem?_append_right (by rw [htl]; exact h1), htl]
    rcases lt_or_ge i (r + n) with h2 | h2
    · rw [hval (i - r) (by omega), List.getElem?_take, if_pos h2]
      congr 1
      omega
    · rw [List.getElem?_eq_none (by omega), List.getElem?_take, if_neg (by omega)]

/-- Branch equation: `try_write` on a full buffer. -/
theorem try_write_eq_full (Size : Nat) (s : RingState T) (item : T)
    (h : Size ≤ s.header.write_index - s.header.read_index) :
    try_write Size s item =
      (false, update_metrics_on_contention
        { s with consecutive_full_writes := s.consecutive_full_writes + 1 }) := by
  simp only [try_write]
  rw [if_pos h]

/-- Branch equation: `try_write` on a non-full buffer. -/
theorem try_write_eq_ok (Size : Nat) (s : RingState T) (item : T)
    (h : ¬ Size ≤ s.header.write_index - s.header.read_index) :
    try_write Size s item =
      (true, update_metrics_on_write
        { s with consecutive_full_writes := 0,
                 slots := fun k => if k = s.header.write_index % Size then item else s.slots k,
                 header := { s.header with write_index := s.header.write_index + 1 } }) := by
  simp only [try_write]
  rw [if_neg h]

/-- Branch equation: `try_read` on an empty buffer. -/
theorem try_read_eq_empty (Size : Nat) (s : RingState T)
    (h : s.header.read_index = s.header.write_index) :
    try_read Size s =
      (none, { s with consecutive_empty_reads := s.consecutive_empty_reads + 1 }) := by
  simp only [try_read]
  rw [if_pos h]

/-- Branch equation: `try_read` on a non-empty buffer. -/
theorem try_read_eq_ok (Size : Nat) (s : RingState T)
    (h : ¬ s.header.read_index = s.header.write_index) :
    try_read Size s =
      (some (s.slots (s.header.read_index % Size)), update_metrics_on_read
        { s with consecutive_empty_reads := 0,
                 header := { s.header with read_index := s.header.read_index + 1 } }) := by
  simp only [try_read]
  rw [if_neg h]

/-- Branch equation: `try_write_batch` transferring a positive count. -/
theorem try_write_batch_eq_ok (Size : Nat) (s : RingState T) (items : List T)
    (h0 : ¬ items.length = 0)
    (h1 : ¬ min items.length (Size - (s.header.write_index - s.header.read_index)) = 0) :
    try_write_batch Size s items =
      (min items.length (Size - (s.header.write_index - s.header.read_index)),
        { s with consecutive_full_writes := 0,
                 slots := writeSlots Size s.slots s.header.write_index
                   (items.take (min items.length
                     (Size - (s.header.write_index - s.header.read_index)))),
                 header := { s.header with
                   write_index := s.header.write_index +
                     min items.length (Size - (s.header.write_index - s.header.read_index)),
                   total_writes := s.header.total_writes +
                     min items.length (Size - (s.header.write_index - s.header.read_index)) } }) := by
  simp only [try_write_batch]
  rw [if_neg h0, if_neg h1]

/-- Branch equation: `try_read_batch` transferring a positive count. -/
theorem try_read_batch_eq_ok (Size : Nat) (s : RingState T) (count : Nat)
    (h0 : ¬ count = 0)
    (h1 : ¬ min count (s.header.write_index - s.header.read_index) = 0) :
    try_read_batch Size s count =
      ((List.range (min count (s.header.write_index - s.header.read_index))).map
          (fun i => s.slots ((s.header.read_index + i) % Size)),
        { s with consecutive_empty_reads := 0,
                 header := { s.header with
                   read_index := s.header.read_index +
                     min count (s.header.write_index - s.header.read_index),
                   total_reads := s.header.total_reads +
                     min count (s.header.write_index - s.header.read_index) } }) := by
  simp only [try_read_batch]
  rw [if_neg h0, if_neg h1]

/-- Lemma: `try_write` preserves the invariant, with the written record appended
to the write history exactly when the call succeeds. -/
theorem try_write_inv {Size : Nat} {s : RingState T} {ws rs : List T} (item : T)
    (inv : RingInv Size s ws rs) :
    RingInv Size (try_write Size s item).2
      (if (try_write Size s item).1 then ws ++ [item] else ws) rs := by
  by_cases hfull : Size ≤ s.header.write_index - s.header.read_index
  · rw [try_write_eq_full Size s item hfull]
    exact ⟨inv.r_le_w, inv.depth_le, inv.ws_len, inv.rs_eq, inv.slots_inv⟩
  · rw [try_write_eq_ok Size s item hfull]
    have hlt : s.header.write_index - s.header.read_index < Size := by omega
    have hrw : s.header.read_index ≤ s.header.write_index := inv.r_le_w
    refine ⟨?_, ?_, ?_, ?_, ?_⟩
    · show s.header.read_index ≤ s.header.write_index + 1
      omega
    · show s.header.write_index + 1 - s.header.read_index ≤ Size
      omega
    · show (ws ++ [item]).length = s.header.write_index + 1
      simp [inv.ws_len]
    · show rs = (ws ++ [item]).take s.header.read_index
      rw [inv.rs_eq]
      exact (List.take_append_of_le_length (by rw [inv.ws_len]; exact hrw)).symm
    · intro i hir hiw
      have hir2 : s.header.read_index ≤ i := hir
      have hiw2 : i < s.header.write_index + 1 := hiw
      show (ws ++ [item])[i]? =
        some (if i % Size = s.header.write_index % Size then item else s.slots (i % Size))
      rcases Nat.lt_or_ge i s.header.write_index with hi | hi
      · rw [List.getElem?_append_left (by rw [inv.ws_len]; exact hi)]
        rw [inv.slots_inv i hir2 hi]
        have hne : i % Size ≠ s.header.write_index % Size :=
          mod_ne_of_sub_lt hi (by omega)
        rw [if_neg hne]
      · have hieq : i = s.header.write_index := by omega
        subst hieq
        rw [← inv.ws_len, List.getElem?_concat_length, inv.ws_len]
        rw [if_pos rfl]

/-- Lemma: `try_read` preserves the invariant, with the returned record appended
to the read history exactly when the call succeeds. -/
theorem try_read_inv {Size : Nat} {s : RingState T} {ws rs : List T}
    (inv : RingInv Size s ws rs) :
    RingInv Size (try_read Size s).2 ws
      (match (try_read Size s).1 with | some x => rs ++ [x] | none => rs) := by
  by_cases hempty : s.header.read_index = s.header.write_index
  · rw [try_read_eq_empty Size s hempty]
    exact ⟨inv.r_le_w, inv.depth_le, inv.ws_len, inv.rs_eq, inv.slots_inv⟩
  · rw [try_read_eq_ok Size s hempty]
    have hlt : s.header.read_index < s.header.write_index :=
      Nat.lt_of_le_of_ne inv.r_le_w hempty
    have hdep : s.header.write_index - s.header.read_index ≤ Size := inv.depth_le
    refine ⟨?_, ?_, ?_, ?_, ?_⟩
    · show s.header.read_index + 1 ≤ s.header.write_index
      omega
    · show s.header.write_index - (s.header.read_index + 1) ≤ Size
      omega
    · exact inv.ws_len
    · show rs ++ [s.slots (s.header.read_index % Size)] = ws.take (s.header.read_index + 1)
      rw [inv.rs_eq]
      exact take_append_block ws _ s.header.read_index 1
        (by rw [inv.ws_len]; omega) (by simp)
        (by intro j hj
            have hj0 : j = 0 := by omega
            subst hj0
            simp [(inv.slots_inv s.header.read_index (Nat.le_refl _) hlt)])
    · intro i hir hiw
      have hir2 : s.header.read_index + 1 ≤ i := hir
      have hiw2 : i < s.header.write_index := hiw
      exact inv.slots_inv i (by omega) hiw2

/-- Lemma: `try_write_batch` preserves the invariant; the records actually
transferred are appended to the write history. -/
theorem try_write_batch_inv {Size : Nat} {s : RingState T} {ws rs : List T}
    (items : List T) (inv : RingInv Size s ws rs) :
    RingInv Size (try_write_batch Size s items).2
      (ws ++ items.take (try_write_batch Size s items).1) rs := by
  by_cases hcnt : items.length = 0
  · have : try_write_batch Size s items = (0, s) := by
      simp only [try_write_batch]
      rw [if_pos hcnt]
    rw [this]
    simpa using inv
  · by_cases hzero : min items.length (Size - (s.header.write_index - s.header.read_index)) = 0
    · have : try_write_batch Size s items =
          (0, update_metrics_on_contention
            { s with consecutive_full_writes := s.consecutive_full_writes + 1 }) := by
        simp only [try_write_batch]
        rw [if_neg hcnt, if_pos hzero]
      rw [this]
      have hg : (ws ++ items.take 0) = ws := by simp
      rw [hg]
      exact ⟨inv.r_le_w, inv.depth_le, inv.ws_len, inv.rs_eq, inv.slots_inv⟩
    · rw [try_write_batch_eq_ok Size s items hcnt hzero]
      set w := s.header.write_index with hwdef
      set r := s.header.read_index with hrdef
      set n := min items.length (Size - (w - r)) with hndef
      have hnlen : n ≤ items.length := Nat.min_le_left _ _
      have hnavail : n ≤ Size - (w - r) := Nat.min_le_right _ _
      have hnpos : 0 < n := Nat.pos_of_ne_zero hzero
      have htklen : (items.take n).length = n := by simp [hnlen]
      have hrw : r ≤ w := inv.r_le_w
      have hdep : w - r ≤ Size := inv.depth_le
      refine ⟨?_, ?_, ?_, ?_, ?_⟩
      · show r ≤ w + n
        omega
      · show w + n - r ≤ Size
        omega
      · show (ws ++ items.take n).length = w + n
        simp only [List.length_append, htklen, inv.ws_len]
      · show rs = (ws ++ items.take n).take r
        rw [inv.rs_eq]
        exact (List.take_append_of_le_length (by rw [inv.ws_len]; exact hrw)).symm
      · intro i hir hiw
        have hir2 : r ≤ i := hir
        have hiw2 : i < w + n := hiw
        show (ws ++ items.take n)[i]? =
          some (writeSlots Size s.slots w (items.take n) (i % Size))
        rcases Nat.lt_or_ge i w with hi | hi
        · rw [List.getElem?_append_left (by rw [inv.ws_len]; exact hi)]
          rw [inv.slots_inv i hir2 hi]
          rw [writeSlots_not_hit]
          intro m hm1 hm2
          rw [htklen] at hm2
          exact fun h => (mod_ne_of_sub_lt (show i < m by omega) (by omega)) h.symm
        · have hj : i - w < n := by omega
          rw [List.getElem?_append_right (by rw [inv.ws_len]; exact hi), inv.ws_len]
          have := writeSlots_hit Size (items.take n) s.slots w (i - w)
            (by rw [htklen]; exact hj)
            (by intro j2 hj2 hj2len
                rw [htklen] at hj2len
                exact (mod_ne_of_sub_lt
                  (show w + (i - w) < w + j2 by omega) (by omega)).symm)
          have hrep : w + (i - w) = i := by omega
          rw [hrep] at this
          rw [← this]

/-- Lemma: `try_read_batch` preserves the invariant; the records actually
transferred are appended to the read history. -/
theorem try_read_batch_inv {Size : Nat} {s : RingState T} {ws rs : List T}
    (count : Nat) (inv : RingInv Size s ws rs) :
    RingInv Size (try_read_batch Size s count).2 ws
      (rs ++ (try_read_batch Size s count).1) := by
  by_cases hcnt : count = 0
  · have : try_read_batch Size s count = ([], s) := by
      simp only [try_read_batch]
      rw [if_pos hcnt]
    rw [this]
    simpa using inv
  · by_cases hzero : min count (s.header.write_index - s.header.read_index) = 0
    · have : try_read_batch Size s count =
          ([], { s with consecutive_empty_reads := s.consecutive_empty_reads + 1 }) := by
        simp only [try_read_batch]
        rw [if_neg hcnt, if_pos hzero]
      rw [this]
      have hg : rs ++ ([] : List T) = rs := by simp
      rw [hg]
      exact ⟨inv.r_le_w, inv.depth_le, inv.ws_len, inv.rs_eq, inv.slots_inv⟩
    · rw [try_read_batch_eq_ok Size s count hcnt hzero]
      set w := s.header.write_index with hwdef
      set r := s.header.read_index with hrdef
      set n := min count (w - r) with hndef
      have hnavail : n ≤ w - r := Nat.min_le_right _ _
      have hrw : r ≤ w := inv.r_le_w
      have hdep : w - r ≤ Size := inv.depth_le
      refine ⟨?_, ?_, ?_, ?_, ?_⟩
      · show r + n ≤ w
        omega
      · show w - (r + n) ≤ Size
        omega
      · exact inv.ws_len
      · show rs ++ (List.range n).map (fun i => s.slots ((r + i) % Size)) = ws.take (r + n)
        rw [inv.rs_eq]
        exact take_append_block ws _ r n (by rw [inv.ws_len]; omega) (by simp)
          (by intro j hj
              rw [List.getElem?_map, List.getElem?_range hj]
              simp [inv.slots_inv (r + j) (by omega) (by omega)])
      · intro i hir hiw
        have hir2 : r + n ≤ i := hir
        have hiw2 : i < w := hiw
        exact inv.slots_inv i (by omega) hiw2

/-- Lemma: `reset_tta_metrics` preserves the invariant (it leaves indices, slots
and histories untouched). -/
theorem reset_tta_metrics_inv {Size : Nat} {s : RingState T} {ws rs : List T}
    (inv : RingInv Size s ws rs) :
    RingInv Size (reset_tta_metrics s) ws rs :=
  ⟨inv.r_le_w, inv.depth_le, inv.ws_len, inv.rs_eq, inv.slots_inv⟩

/-- Any state reached from the fresh buffer by any operation sequence
satisfies the invariant. -/
theorem runTr_inv (T : Type) [Inhabited T] (Size : Nat) (ops : List (RBOp T)) :
    RingInv Size (runTr T Size ops).1 (runTr T Size ops).2.1 (runTr T Size ops).2.2 := by
  suffices h : ∀ (st : RingState T × List T × List T), RingInv Size st.1 st.2.1 st.2.2 →
      RingInv Size (ops.foldl (applyOpTr Size) st).1 (ops.foldl (applyOpTr Size) st).2.1
        (ops.foldl (applyOpTr Size) st).2.2 by
    refine h _ ?_
    refine ⟨Nat.le_refl 0, by simp [initRing], by simp [initRing], by simp [initRing], ?_⟩
    intro i hir hiw
    simp [initRing] at hiw
  intro st hst
  induction ops generalizing st with
  | nil => exact hst
  | cons op rest ih =>
      refine ih _ ?_
      obtain ⟨s, ws, rs⟩ := st
      cases op with
      | write item => exact try_write_inv item hst
      | read => exact try_read_inv hst
      | writeBatch items => exact try_write_batch_inv items hst
      | readBatch count => exact try_read_batch_inv count hst
      | resetMetrics => exact reset_tta_metrics_inv hst

/-- Counter bookkeeping that holds on every run without
`reset_tta_metrics`: the totals coincide with the indices. -/
structure ConsCount (s : RingState T) : Prop where
  tw_eq : s.header.total_writes = s.header.write_index
  tr_eq : s.header.total_reads = s.header.read_index

/-- The counter bookkeeping is preserved by every operation except
`reset_tta_metrics`. -/
theorem runTr_consCount (T : Type) [Inhabited T] (Size : Nat) (ops : List (RBOp T))
    (hnr : NoReset ops) : ConsCount (runState T Size ops) := by
  suffices h : ∀ (st : RingState T × List T × List T), ConsCount st.1 → NoReset ops →
      ConsCount (ops.foldl (applyOpTr Size) st).1 by
    exact h _ ⟨rfl, rfl⟩ hnr
  clear hnr
  induction ops with
  | nil => exact fun st h _ => h
  | cons op rest ih =>
      intro st hst hnr
      refine ih _ ?_ ?_
      · obtain ⟨s, ws, rs⟩ := st
        cases op with
        | write item =>
            by_cases hfull : Size ≤ s.header.write_index - s.header.read_index
            · show ConsCount (try_write Size s item).2
              rw [try_write_eq_full Size s item hfull]
              exact ⟨hst.tw_eq, hst.tr_eq⟩
            · show ConsCount (try_write Size s item).2
              rw [try_write_eq_ok Size s item hfull]
              exact ⟨congrArg (· + 1) hst.tw_eq, hst.tr_eq⟩
        | read =>
            by_cases hempty : s.header.read_index = s.header.write_index
            · show ConsCount (try_read Size s).2
              rw [try_read_eq_empty Size s hempty]
              exact ⟨hst.tw_eq, hst.tr_eq⟩
            · show ConsCount (try_read Size s).2
              rw [try_read_eq_ok Size s hempty]
              exact ⟨hst.tw_eq, congrArg (· + 1) hst.tr_eq⟩
        | writeBatch items =>
            show ConsCount (try_write_batch Size s items).2
            by_cases hcnt : items.length = 0
            · have heq : try_write_batch Size s items = (0, s) := by
                simp only [try_write_batch]
                rw [if_pos hcnt]
              rw [heq]
              exact hst
            · by_cases hzero :
                  min items.length (Size - (s.header.write_index - s.header.read_index)) = 0
              · have heq : try_write_batch Size s items =
                    (0, update_metrics_on_contention
                      { s with consecutive_full_writes := s.consecutive_full_writes + 1 }) := by
                  simp only [try_write_batch]
                  rw [if_neg hcnt, if_pos hzero]
                rw [heq]
                exact ⟨hst.tw_eq, hst.tr_eq⟩
              · rw [try_write_batch_eq_ok Size s items hcnt hzero]
                exact ⟨congrArg (· + _) hst.tw_eq, hst.tr_eq⟩
        | readBatch count =>
            show ConsCount (try_read_batch Size s count).2
            by_cases hcnt : count = 0
            · have heq : try_read_batch Size s count = ([], s) := by
                simp only [try_read_batch]
                rw [if_pos hcnt]
              rw [heq]
              exact hst
            · by_cases hzero :
                  min count (s.header.write_index - s.header.read_index) = 0
              · have heq : try_read_batch Size s count =
                    ([], { s with consecutive_empty_reads := s.consecutive_empty_reads + 1 }) := by
                  simp only [try_read_batch]
                  rw [if_neg hcnt, if_pos hzero]
                rw [heq]
                exact ⟨hst.tw_eq, hst.tr_eq⟩
              · rw [try_read_batch_eq_ok Size s count hcnt hzero]
                exact ⟨hst.tw_eq, congrArg (· + _) hst.tr_eq⟩
        | resetMetrics => exact absurd hnr (fun h => h)
      · cases op with
        | write item => exact hnr
        | read => exact hnr
        | writeBatch items => exact hnr
        | readBatch count => exact hnr
        | resetMetrics => exact absurd hnr (fun h => h)

/-- C1 (amended): on every state reachable from a fresh buffer by any
sequence of `try_write`, `try_read`, `try_write_batch`, `try_read_batch`
and `reset_tta_metrics`, the header satisfies
`read_index ≤ write_index` and `write_index - read_index ≤ Size`; and
whenever the sequence contains no `reset_tta_metrics`,
`total_writes - total_reads` equals the current depth
`write_index - read_index` (with `total_reads ≤ total_writes`). -/
theorem ring_buffer_conservation (T : Type) [Inhabited T] (Size : Nat)
    (ops : List (RBOp T)) :
    ((runState T Size ops).header.read_index ≤ (runState T Size ops).header.write_index ∧
      (runState T Size ops).header.write_index - (runState T Size ops).header.read_index ≤ Size) ∧
    (NoReset ops →
      (runState T Size ops).header.total_writes - (runState T Size ops).header.total_reads =
        (runState T Size ops).header.write_index - (runState T Size ops).header.read_index ∧
      (runState T Size ops).header.total_reads ≤ (runState T Size ops).header.total_writes) := by
  have hinv := runTr_inv T Size ops
  refine ⟨⟨hinv.r_le_w, hinv.depth_le⟩, ?_⟩
  intro hnr
  have hc := runTr_consCount T Size ops hnr
  rw [hc.tw_eq, hc.tr_eq]
  exact ⟨rfl, hinv.r_le_w⟩

/-- Witness for `ring_buffer_conservation` at a concrete reset-free run. -/
theorem ring_buffer_conservation_witness :
    @NoReset Nat [RBOp.write 3, RBOp.read, RBOp.write 5] ∧
    (runState Nat 64 [RBOp.write 3, RBOp.read, RBOp.write 5]).header.total_writes -
        (runState Nat 64 [RBOp.write 3, RBOp.read, RBOp.write 5]).header.total_reads =
      (runState Nat 64 [RBOp.write 3, RBOp.read, RBOp.write 5]).header.write_index -
        (runState Nat 64 [RBOp.write 3, RBOp.read, RBOp.write 5]).header.read_index :=
  ⟨trivial,
    ((ring_buffer_conservation Nat 64 [RBOp.write 3, RBOp.read, RBOp.write 5]).2 trivial).1⟩

/-- C1 counterexample: with `reset_tta_metrics` in the operation set, the
conservation equality `total_writes - total_reads = depth` fails — one
successful write followed by a metrics reset leaves depth 1 but zeroed
totals (`reset_tta_metrics` zeroes the counters without touching the
indices, `shared_memory.cpp:383-394`). -/
theorem ring_buffer_conservation_counterexample :
    ¬ ((runState Nat 64 [RBOp.write 7, RBOp.resetMetrics]).header.total_writes -
          (runState Nat 64 [RBOp.write 7, RBOp.resetMetrics]).header.total_reads =
        (runState Nat 64 [RBOp.write 7, RBOp.resetMetrics]).header.write_index -
          (runState Nat 64 [RBOp.write 7, RBOp.resetMetrics]).header.read_index) := by
  decide

/-- C6 (confirmed): on every run from a fresh buffer, the sequence of
successfully read records is exactly the `read_index`-prefix of the
sequence of successfully written records — reads return the written
bytes, in order, without loss, duplication or reordering. -/
theorem ring_buffer_fifo (T : Type) [Inhabited T] (Size : Nat) (ops : List (RBOp T)) :
    (runTr T Size ops).2.2 =
      (runTr T Size ops).2.1.take (runTr T Size ops).1.header.read_index ∧
    ∃ t, (runTr T Size ops).2.2 ++ t = (runTr T Size ops).2.1 := by
  have hinv := runTr_inv T Size ops
  refine ⟨hinv.rs_eq, (runTr T Size ops).2.1.drop (runTr T Size ops).1.header.read_index, ?_⟩
  rw [hinv.rs_eq]
  exact List.take_append_drop _ _

/-- Producer-only run: `n` consecutive `try_write` calls on a fresh
buffer, recording each boolean result (scenario 4 of the spec). -/
def runWrites (T : Type) [Inhabited T] (Size : Nat) (f : Nat → T) : Nat → List Bool × RingState T
  | 0 => ([], initRing T)
  | n + 1 =>
      ((runWrites T Size f n).1 ++ [(try_write Size (runWrites T Size f n).2 (f n)).1],
        (try_write Size (runWrites T Size f n).2 (f n)).2)

/-- Filling phase: the first `k ≤ Size` writes all succeed. -/
theorem runWrites_fill (T : Type) [Inhabited T] (Size : Nat) (f : Nat → T)
    (k : Nat) (hk : k ≤ Size) :
    (runWrites T Size f k).1 = List.replicate k true ∧
    (runWrites T Size f k).2.header =
      { write_index := k, read_index := 0, total_writes := k, total_reads := 0,
        contention_events := 0, max_queue_depth := k } := by
  induction k with
  | zero => exact ⟨rfl, rfl⟩
  | succ m ih =>
      obtain ⟨h1, h2⟩ := ih (by omega)
      have hs := try_write_eq_ok Size (runWrites T Size f m).2 (f m)
        (by rw [h2]; show ¬ Size ≤ m - 0; omega)
      constructor
      · show (runWrites T Size f m).1 ++ [(try_write Size (runWrites T Size f m).2 (f m)).1] = _
        rw [hs, h1]
        rw [List.replicate_succ']
      · show (try_write Size (runWrites T Size f m).2 (f m)).2.header = _
        rw [hs]
        show (update_metrics_on_write _).header = _
        simp only [update_metrics_on_write]
        rw [h2]
        simp [Nat.max_eq_right]

/-- Back-pressure phase: every write after the first `Size` fails and
bumps the contention counter, leaving indices unchanged. -/
theorem runWrites_over (T : Type) [Inhabited T] (Size : Nat) (f : Nat → T) (m : Nat) :
    (runWrites T Size f (Size + m)).1 =
      List.replicate Size true ++ List.replicate m false ∧
    (runWrites T Size f (Size + m)).2.header =
      { write_index := Size, read_index := 0, total_writes := Size, total_reads := 0,
        contention_events := m, max_queue_depth := Size } := by
  induction m with
  | zero =>
      have h := runWrites_fill T Size f Size (Nat.le_refl Size)
      simpa using h
  | succ m ih =>
      obtain ⟨h1, h2⟩ := ih
      have hs := try_write_eq_full Size (runWrites T Size f (Size + m)).2 (f (Size + m))
        (by rw [h2]; show Size ≤ Size - 0; omega)
      constructor
      · show (runWrites T Size f (Size + m)).1 ++
            [(try_write Size (runWrites T Size f (Size + m)).2 (f (Size + m))).1] = _
        rw [hs, h1, List.replicate_succ']
        simp
      · show (try_write Size (runWrites T Size f (Size + m)).2 (f (Size + m))).2.header = _
        rw [hs]
        show (update_metrics_on_contention _).header = _
        simp only [update_metrics_on_contention]
        rw [h2]

/-- C7 (confirmed): with no consumer, a run of `W ≥ Size` writes on a
capacity-`Size` buffer succeeds exactly on the first `Size` attempts and
fails on the remaining `W - Size`; the failures are counted in
`contention_events`, and the final depth is `Size`. Moreover each failed
write leaves `write_index`, `read_index` and all slots unchanged and
increments `contention_events` by exactly one. -/
theorem ring_back_pressure (T : Type) [Inhabited T] (Size W : Nat) (f : Nat → T)
    (h : Size ≤ W) :
    (runWrites T Size f W).1 =
      List.replicate Size true ++ List.replicate (W - Size) false ∧
    (runWrites T Size f W).2.header.contention_events = W - Size ∧
    (runWrites T Size f W).2.header.write_index -
      (runWrites T Size f W).2.header.read_index = Size ∧
    (runWrites T Size f W).2.header.total_writes = Size ∧
    (∀ (s : RingState T) (item : T), Size ≤ s.header.write_index - s.header.read_index →
      (try_write Size s item).1 = false ∧
      (try_write Size s item).2.header.write_index = s.header.write_index ∧
      (try_write Size s item).2.header.read_index = s.header.read_index ∧
      (try_write Size s item).2.slots = s.slots ∧
      (try_write Size s item).2.header.contention_events = s.header.contention_events + 1) := by
  obtain ⟨m, rfl⟩ : ∃ m, W = Size + m := ⟨W - Size, by omega⟩
  obtain ⟨h1, h2⟩ := runWrites_over T Size f m
  have hm : Size + m - Size = m := by omega
  refine ⟨by rw [h1, hm], by rw [h2, hm], by rw [h2]; simp, by rw [h2], ?_⟩
  intro s item hfull
  rw [try_write_eq_full Size s item hfull]
  exact ⟨rfl, rfl, rfl, rfl, rfl⟩

/-- Witness for `ring_back_pressure`: 5000 producer-only writes into a
capacity-4096 buffer give 4096 successes, 904 failures,
`contention_events = 904` and depth 4096. -/
theorem ring_back_pressure_witness :
    (4096 : Nat) ≤ 5000 ∧
    (runWrites Nat 4096 (fun i => i) 5000).1 =
      List.replicate 4096 true ++ List.replicate 904 false ∧
    (runWrites Nat 4096 (fun i => i) 5000).2.header.contention_events = 904 ∧
    (runWrites Nat 4096 (fun i => i) 5000).2.header.write_index -
      (runWrites Nat 4096 (fun i => i) 5000).2.header.read_index = 4096 := by
  have h := ring_back_pressure Nat 4096 5000 (fun i => i) (by norm_num)
  have h904 : (5000 : Nat) - 4096 = 904 := by norm_num
  rw [h904] at h
  exact ⟨by norm_num, h.1, h.2.1, h.2.2.1⟩

/-- The `SharedRingBuffer` object seen through its (possibly null)
`header_` pointer; a moved-from buffer has `header_ = nullptr`
(`shared_memory.cpp:148-167`). The non-null case delegates to the state
operations above. -/
structure SharedRingBufferObj (T : Type) where
  header_ : Option (RingState T)

/-- Model of `try_write` null-header guard (`shared_memory.cpp:171`). -/
def obj_try_write (Size : Nat) (b : SharedRingBufferObj T) (item : T) :
    Bool × SharedRingBufferObj T :=
  match b.header_ with
  | none => (false, b)
  | some s => ((try_write Size s item).1, ⟨some (try_write Size s item).2⟩)

/-- Model of `try_read` null-header guard (`shared_memory.cpp:207`). -/
def obj_try_read (Size : Nat) (b : SharedRingBufferObj T) :
    Option T × SharedRingBufferObj T :=
  match b.header_ with
  | none => (none, b)
  | some s => ((try_read Size s).1, ⟨some (try_read Size s).2⟩)

/-- Model of `try_write_batch` null-header guard (`shared_memory.cpp:242`). -/
def obj_try_write_batch (Size : Nat) (b : SharedRingBufferObj T) (items : List T) :
    Nat × SharedRingBufferObj T :=
  match b.header_ with
  | none => (0, b)
  | some s => ((try_write_batch Size s items).1, ⟨some (try_write_batch Size s items).2⟩)

/-- Model of `try_read_batch` null-header guard (`shared_memory.cpp:278`). -/
def obj_try_read_batch (Size : Nat) (b : SharedRingBufferObj T) (count : Nat) :
    List T × SharedRingBufferObj T :=
  match b.header_ with
  | none => ([], b)
  | some s => ((try_read_batch Size s count).1, ⟨some (try_read_batch Size s count).2⟩)

/-- Model of `size` null-header guard (`shared_memory.cpp:313`). -/
def obj_size (b : SharedRingBufferObj T) : Nat :=
  match b.header_ with
  | none => 0
  | some s => ringSize s

/-- Model of `empty` null-header guard (`shared_memory.cpp:321-327`). -/
def obj_empty (b : SharedRingBufferObj T) : Bool :=
  match b.header_ with
  | none => true
  | some s => decide (s.header.write_index = s.header.read_index)

/-- Model of `full` null-header guard (`shared_memory.cpp:330-336`). -/
def obj_full (Size : Nat) (b : SharedRingBufferObj T) : Bool :=
  match b.header_ with
  | none => false
  | some s => decide (Size ≤ s.header.write_index - s.header.read_index)

/-- Model of `total_writes` accessor (`shared_ring_buffer.h:178-180`). -/
def obj_total_writes (b : SharedRingBufferObj T) : Nat :=
  match b.header_ with
  | none => 0
  | some s => s.header.total_writes

/-- Model of `total_reads` accessor (`shared_ring_buffer.h:182-184`). -/
def obj_total_reads (b : SharedRingBufferObj T) : Nat :=
  match b.header_ with
  | none => 0
  | some s => s.header.total_reads

/-- C10 (confirmed): every public operation on a buffer whose header
pointer is null is total and returns the neutral value: `try_write` and
`try_read` fail, the batch operations transfer nothing, `size` is 0,
`empty` is true, `full` is false, and the totals read 0. -/
theorem null_header_total (T : Type) (Size : Nat) (b : SharedRingBufferObj T)
    (hnull : b.header_ = none) :
    (∀ item, (obj_try_write Size b item).1 = false ∧ (obj_try_write Size b item).2 = b) ∧
    (obj_try_read Size b).1 = none ∧ (obj_try_read Size b).2 = b ∧
    (∀ items, (obj_try_write_batch Size b items).1 = 0 ∧
      (obj_try_write_batch Size b items).2 = b) ∧
    (∀ count, (obj_try_read_batch Size b count).1 = [] ∧
      (obj_try_read_batch Size b count).2 = b) ∧
    obj_size b = 0 ∧ obj_empty b = true ∧ obj_full Size b = false ∧
    obj_total_writes b = 0 ∧ obj_total_reads b = 0 := by
  obtain ⟨hd⟩ := b
  cases hnull
  exact ⟨fun item => ⟨rfl, rfl⟩, rfl, rfl, fun items => ⟨rfl, rfl⟩,
    fun count => ⟨rfl, rfl⟩, rfl, rfl, rfl, rfl, rfl⟩

/-- Witness for `null_header_total` at a concrete moved-from buffer. -/
theorem null_header_total_witness :
    (obj_try_write 64 (⟨none⟩ : SharedRingBufferObj Nat) 7).1 = false ∧
    obj_size (⟨none⟩ : SharedRingBufferObj Nat) = 0 ∧
    obj_empty (⟨none⟩ : SharedRingBufferObj Nat) = true ∧
    obj_full 64 (⟨none⟩ : SharedRingBufferObj Nat) = false :=
  ⟨((null_header_total Nat 64 ⟨none⟩ rfl).1 7).1,
    (null_header_total Nat 64 ⟨none⟩ rfl).2.2.2.2.2.1,
    (null_header_total Nat 64 ⟨none⟩ rfl).2.2.2.2.2.2.1,
    (null_header_total Nat 64 ⟨none⟩ rfl).2.2.2.2.2.2.2.1⟩

end IPC

namespace Core

/-- Model of `TaskScheduler::TaskDefinition` (`task_scheduler.h:31-46`). Durations
are `std::chrono::nanoseconds` tick counts, modelled as `Nat`; the
runtime-only `function` handle is irrelevant to schedule computation and
omitted. `priority` is a signed `int`. -/
structure TaskDefinition where
  name : String
  period : Nat
  worst_case_execution_time : Nat
  deadline : Nat
  priority : Int
  is_critical : Bool
deriving Repr, DecidableEq

instance : Inhabited TaskDefinition :=
  ⟨{ name := "", period := 1, worst_case_execution_time := 0, deadline := 0,
     priority := 0, is_critical := false }⟩

/-- Model of `TaskScheduler::ScheduledExecution` (`task_scheduler.h:51-56`). -/
structure ScheduledExecution where
  task_id : Nat
  start_time : Nat
  end_time : Nat
  instance_number : Nat
deriving Repr, DecidableEq

/-- Model of `TaskScheduler::validate_task_definition` (`task_scheduler.cpp:54-84`):
period divisible by the basic time unit, `WCET ≤ period`,
`deadline ≤ period`, `period > 0`. -/
def validate_task_definition (btu : Nat) (t : TaskDefinition) : Bool :=
  if t.period % btu ≠ 0 then false
  else if t.period < t.worst_case_execution_time then false
  else if t.period < t.deadline then false
  else if t.period = 0 then false
  else true

/-- The utilization sum `Σ WCETᵢ / Periodᵢ` accumulated by
`check_schedulability` and `finalize_schedule`
(`task_scheduler.cpp:88-94` and `286-290`); `double` arithmetic modelled
as exact `ℚ`. -/
def total_utilization (tasks : List TaskDefinition) : ℚ :=
  tasks.foldl
    (fun acc t => acc + (t.worst_case_execution_time : ℚ) / (t.period : ℚ)) 0

/-- Model of `TaskScheduler::check_schedulability` (`task_scheduler.cpp:86-113`):
reject iff total utilization strictly exceeds 1; the Liu–Layland
comparison only prints a warning and never changes the result. -/
def check_schedulability (tasks : List TaskDefinition) : Bool :=
  if 1 < total_utilization tasks then false else true

/-- Model of `TaskScheduler::compute_hyperperiod` (`task_scheduler.cpp:34-52`):
fold `std::lcm` over the task periods starting from the first; the
60-second comparison only prints a warning. An empty task set gives the
basic time unit. -/
def compute_hyperperiod (btu : Nat) : List TaskDefinition → Nat
  | [] => btu
  | t :: rest => rest.foldl (fun hp t2 => Nat.lcm hp t2.period) t.period

/-- Model of `TaskScheduler::has_timing_conflict` (`task_scheduler.cpp:225-228`). -/
def has_timing_conflict (e1 e2 : ScheduledExecution) : Bool :=
  decide (¬ (e1.end_time ≤ e2.start_time ∨ e2.end_time ≤ e1.start_time))

/-- The `H/P` instances of one task enumerated by the inner loop of
`generate_schedule_table` (`task_scheduler.cpp:125-140`). -/
def taskInstances (task_id : Nat) (t : TaskDefinition) (H : Nat) : List ScheduledExecution :=
  (List.range (H / t.period)).map fun inst =>
    { task_id := task_id, start_time := inst * t.period,
      end_time := inst * t.period + t.worst_case_execution_time,
      instance_number := inst }

/-- All task instances within the hyperperiod, task ids assigned in list
order starting from `base` (`task_scheduler.cpp:125-140`). -/
def allExecutionsAux (H : Nat) : List TaskDefinition → Nat → List ScheduledExecution
  | [], _ => []
  | t :: rest, base => taskInstances base t H ++ allExecutionsAux H rest (base + 1)

/-- The `all_executions` vector of `generate_schedule_table`. -/
def allExecutions (tasks : List TaskDefinition) (H : Nat) : List ScheduledExecution :=
  allExecutionsAux H tasks 0

/-- Priority lookup `task_definitions_[id].priority`. -/
def priorityOf (tasks : List TaskDefinition) (id : Nat) : Int :=
  (tasks.getD id default).priority

/-- The sort comparator of `generate_schedule_table`
(`task_scheduler.cpp:143-149`): release offset ascending, ties broken by
descending priority. (`std::sort` leaves the order of incomparable
elements unspecified; a stable merge sort is one admissible outcome.) -/
def releaseOrder (tasks : List TaskDefinition) (a b : ScheduledExecution) : Bool :=
  if a.start_time = b.start_time then
    decide (priorityOf tasks b.task_id < priorityOf tasks a.task_id)
  else decide (a.start_time < b.start_time)

/-- The rescheduling `while` loop of `generate_schedule_table`
(`task_scheduler.cpp:174-215`): advance the candidate start in steps of
the basic time unit until a conflict-free slot is found, give up when the
deadline would be missed or the hyperperiod is exhausted. The loop
advances `next_slot` by `btu ≥ 1` per iteration (the constructor forces a
positive basic time unit, `task_scheduler.cpp:19-21`), so fuel `H + 1`
never runs out before the `next_slot < H` guard fails. -/
def rescheduleLoop (btu H wcet deadline release : Nat) (e : ScheduledExecution)
    (table : List ScheduledExecution) : Nat → Nat → Option ScheduledExecution
  | 0, _ => none
  | fuel + 1, next_slot =>
      if next_slot < H then
        let ns := next_slot + btu
        let te : ScheduledExecution :=
          { e with start_time := ns, end_time := ns + wcet }
        if release + deadline < te.end_time then none
        else if table.any (fun sch => has_timing_conflict te sch) then
          rescheduleLoop btu H wcet deadline release e table fuel ns
        else some te
      else none

/-- One iteration of the placement loop of `generate_schedule_table`
(`task_scheduler.cpp:152-216`): place the instance if it conflicts with
nothing already scheduled, otherwise try to reschedule it (the preemption
check only prints a warning and never reorders anything). -/
def scheduleStep (btu H : Nat) (tasks : List TaskDefinition)
    (table : List ScheduledExecution) (e : ScheduledExecution) : List ScheduledExecution :=
  if table.any (fun sch => has_timing_conflict e sch) then
    let t := tasks.getD e.task_id default
    match rescheduleLoop btu H t.worst_case_execution_time t.deadline
        (e.instance_number * t.period) e table (H + 1) e.start_time with
    | some te => table ++ [te]
    | none => table
  else table ++ [e]

/-- Model of `TaskScheduler::generate_schedule_table` (`task_scheduler.cpp:115-223`):
enumerate all instances, sort by (release, priority), place each in turn,
then re-sort the accepted table by start offset. -/
def generate_schedule_table (btu H : Nat) (tasks : List TaskDefinition) :
    List ScheduledExecution :=
  if tasks.isEmpty then []
  else
    (((allExecutions tasks H).mergeSort (releaseOrder tasks)).foldl
        (scheduleStep btu H tasks) []).mergeSort
      (fun a b => decide (a.start_time < b.start_time))

/-- The `expected_executions` accumulation of `finalize_schedule`
(`task_scheduler.cpp:294-298`): `Σ H / Pᵢ` in integer division. -/
def expected_executions (H : Nat) (tasks : List TaskDefinition) : Nat :=
  tasks.foldl (fun acc t => acc + H / t.period) 0

/-- Model of `TaskScheduler::SchedulabilityReport` (`task_scheduler.h:61-69`).
Fields the C++ code leaves default-initialised in early-return branches
are modelled as 0/empty. -/
structure SchedulabilityReport where
  is_schedulable : Bool
  hyperperiod : Nat
  basic_time_unit : Nat
  cpu_utilization : ℚ
  total_executions_per_hyperperiod : Nat
  conflicts : List String
  warnings : List String
deriving Repr, DecidableEq

/-- The scheduler members read and written by `finalize_schedule`
(`task_scheduler.h:72-79`); runtime-only members (thread, metrics,
name map) omitted. -/
structure TaskSchedulerState where
  basic_time_unit : Nat
  task_definitions : List TaskDefinition
  schedule_table : List ScheduledExecution
  hyperperiod : Nat
deriving Repr, DecidableEq

/-- Model of `TaskScheduler::finalize_schedule` (`task_scheduler.cpp:262-317`),
returning the report together with the mutated scheduler state. Warning
messages are fixed strings (the C++ embeds formatted numbers). -/
def finalize_schedule (st : TaskSchedulerState) :
    SchedulabilityReport × TaskSchedulerState :=
  if st.task_definitions.isEmpty then
    ({ is_schedulable := false, hyperperiod := 0, basic_time_unit := 0,
       cpu_utilization := 0, total_executions_per_hyperperiod := 0,
       conflicts := ["No tasks defined"], warnings := [] }, st)
  else
    let H := compute_hyperperiod st.basic_time_unit st.task_definitions
    if check_schedulability st.task_definitions = false then
      ({ is_schedulable := false, hyperperiod := H,
         basic_time_unit := st.basic_time_unit, cpu_utilization := 0,
         total_executions_per_hyperperiod := 0,
         conflicts := ["Failed Liu & Layland schedulability test"], warnings := [] },
        { st with hyperperiod := H })
    else
      let table := generate_schedule_table st.basic_time_unit H st.task_definitions
      let U := total_utilization st.task_definitions
      if table.length < expected_executions H st.task_definitions then
        ({ is_schedulable := false, hyperperiod := H,
           basic_time_unit := st.basic_time_unit, cpu_utilization := U,
           total_executions_per_hyperperiod := table.length,
           conflicts := ["Some task instances could not be scheduled"], warnings := [] },
          { st with hyperperiod := H, schedule_table := table })
      else
        ({ is_schedulable := true, hyperperiod := H,
           basic_time_unit := st.basic_time_unit, cpu_utilization := U,
           total_executions_per_hyperperiod := table.length,
           conflicts := [],
           warnings :=
             (if (8 : ℚ) / 10 < U then ["High CPU utilization"] else []) ++
             (if 10000000000 < H then ["Long hyperperiod"] else []) },
          { st with hyperperiod := H, schedule_table := table })

/-- A merge sort of a singleton list is that list. -/
theorem mergeSort_single {α : Type} (le : α → α → Bool) (a : α) :
    [a].mergeSort le = [a] :=
  List.perm_singleton.mp (List.mergeSort_perm [a] le)

/-- The `expected_executions` fold is the sum of the per-task instance
counts. -/
theorem expected_executions_eq_sum (H : Nat) (tasks : List TaskDefinition) :
    expected_executions H tasks = (tasks.map (fun t => H / t.period)).sum := by
  suffices h : ∀ acc, tasks.foldl (fun a t => a + H / t.period) acc =
      acc + (tasks.map (fun t => H / t.period)).sum by
    simpa [expected_executions] using h 0
  induction tasks with
  | nil => simp
  | cons t rest ih =>
      intro acc
      rw [List.foldl_cons, ih]
      simp [Nat.add_assoc]

/-- Lemma: `allExecutions` enumerates exactly `Σ H/Pᵢ` instances. -/
theorem allExecutionsAux_length (H : Nat) (tasks : List TaskDefinition) :
    ∀ base, (allExecutionsAux H tasks base).length =
      (tasks.map (fun t => H / t.period)).sum := by
  induction tasks with
  | nil => intro base; simp [allExecutionsAux]
  | cons t rest ih =>
      intro base
      simp [allExecutionsAux, taskInstances, ih]

/-- A rescheduled instance keeps its task id and instance number
(`test_exec` only changes the start and end offsets,
`task_scheduler.cpp:181-183`). -/
theorem rescheduleLoop_ids (btu H wcet deadline release : Nat) (e : ScheduledExecution)
    (table : List ScheduledExecution) :
    ∀ fuel ns te, rescheduleLoop btu H wcet deadline release e table fuel ns = some te →
      te.task_id = e.task_id ∧ te.instance_number = e.instance_number := by
  intro fuel
  induction fuel with
  | zero =>
      intro ns te h
      simp [rescheduleLoop] at h
  | succ fuel ih =>
      intro ns te h
      rw [rescheduleLoop] at h
      split at h
      · dsimp only at h
        split at h
        · simp at h
        · split at h
          · exact ih _ te h
          · simp only [Option.some.injEq] at h
            subst h
            exact ⟨rfl, rfl⟩
      · simp at h

/-- One placement step grows the count of entries matching any
(task id, instance)-based predicate by at most the contribution of the
source instance. -/
theorem scheduleStep_countP_le (btu H : Nat) (tasks : List TaskDefinition)
    (q : Nat → Nat → Bool) (table : List ScheduledExecution) (e : ScheduledExecution) :
    (scheduleStep btu H tasks table e).countP (fun x => q x.task_id x.instance_number) ≤
      table.countP (fun x => q x.task_id x.instance_number) +
        (if q e.task_id e.instance_number then 1 else 0) := by
  simp only [scheduleStep]
  by_cases hconf : table.any (fun sch => has_timing_conflict e sch) = true
  · rw [if_pos hconf]
    cases hres : rescheduleLoop btu H (tasks.getD e.task_id default).worst_case_execution_time
        (tasks.getD e.task_id default).deadline
        (e.instance_number * (tasks.getD e.task_id default).period) e table
        (H + 1) e.start_time with
    | none =>
        dsimp only
        omega
    | some te =>
        obtain ⟨hid, hinst⟩ := rescheduleLoop_ids _ _ _ _ _ _ _ _ _ _ hres
        rw [List.countP_append, List.countP_cons]
        simp only [List.countP_nil, hid, hinst]
        omega
  · rw [if_neg hconf, List.countP_append, List.countP_cons]
    simp only [List.countP_nil]
    omega

/-- The placement fold grows any (task id, instance)-based count by at
most the count over the pending instances. -/
theorem foldl_scheduleStep_countP_le (btu H : Nat) (tasks : List TaskDefinition)
    (q : Nat → Nat → Bool) (l : List ScheduledExecution) :
    ∀ acc, ((l.foldl (scheduleStep btu H tasks) acc).countP
        (fun x => q x.task_id x.instance_number)) ≤
      acc.countP (fun x => q x.task_id x.instance_number) +
        l.countP (fun x => q x.task_id x.instance_number) := by
  induction l with
  | nil => intro acc; simp
  | cons e rest ih =>
      intro acc
      rw [List.foldl_cons, List.countP_cons]
      have h1 := ih (scheduleStep btu H tasks acc e)
      have h2 := scheduleStep_countP_le btu H tasks q acc e
      omega

/-- Entries produced by one placement step come from the accumulated table
or carry the identity of the source instance. -/
theorem scheduleStep_mem (btu H : Nat) (tasks : List TaskDefinition)
    (table : List ScheduledExecution) (e : ScheduledExecution) :
    ∀ x ∈ scheduleStep btu H tasks table e, x ∈ table ∨
      (x.task_id = e.task_id ∧ x.instance_number = e.instance_number) := by
  intro x hx
  simp only [scheduleStep] at hx
  by_cases hconf : table.any (fun sch => has_timing_conflict e sch) = true
  · rw [if_pos hconf] at hx
    cases hres : rescheduleLoop btu H (tasks.getD e.task_id default).worst_case_execution_time
        (tasks.getD e.task_id default).deadline
        (e.instance_number * (tasks.getD e.task_id default).period) e table
        (H + 1) e.start_time with
    | none =>
        rw [hres] at hx
        exact Or.inl hx
    | some te =>
        rw [hres] at hx
        rw [List.mem_append] at hx
        rcases hx with hx | hx
        · exact Or.inl hx
        · obtain ⟨hid, hinst⟩ := rescheduleLoop_ids _ _ _ _ _ _ _ _ _ _ hres
          simp only [List.mem_singleton] at hx
          subst hx
          exact Or.inr ⟨hid, hinst⟩
  · rw [if_neg hconf, List.mem_append] at hx
    rcases hx with hx | hx
    · exact Or.inl hx
    · simp only [List.mem_singleton] at hx
      subst hx
      exact Or.inr ⟨rfl, rfl⟩

/-- Entries of the placement fold come from the initial table or carry the
identity of some pending instance. -/
theorem foldl_scheduleStep_mem (btu H : Nat) (tasks : List TaskDefinition)
    (l : List ScheduledExecution) :
    ∀ acc x, x ∈ l.foldl (scheduleStep btu H tasks) acc →
      x ∈ acc ∨ ∃ e ∈ l, x.task_id = e.task_id ∧
        x.instance_number = e.instance_number := by
  induction l with
  | nil =>
      intro acc x hx
      exact Or.inl hx
  | cons e rest ih =>
      intro acc x hx
      rcases ih _ x hx with hx2 | ⟨e2, he2, hid⟩
      · rcases scheduleStep_mem btu H tasks acc e x hx2 with hx3 | hx3
        · exact Or.inl hx3
        · exact Or.inr ⟨e, List.mem_cons_self e rest, hx3⟩
      · exact Or.inr ⟨e2, List.mem_cons_of_mem e he2, hid⟩

/-- Counting one value in `List.range`. -/
theorem countP_range_eq (n k : Nat) :
    (List.range n).countP (fun j => decide (j = k)) = if k < n then 1 else 0 := by
  induction n with
  | zero => simp
  | succ n ih =>
      rw [List.range_succ, List.countP_append, ih, List.countP_cons]
      simp only [List.countP_nil]
      by_cases h : n = k
      · subst h
        simp
      · simp only [decide_eq_true_eq]
        rw [if_neg h]
        split_ifs <;> omega

/-- How many instances of one task match a fixed (task id, instance)
pair. -/
theorem taskInstances_countP_pair (id : Nat) (t : TaskDefinition) (H i k : Nat) :
    (taskInstances id t H).countP
        (fun x => decide (x.task_id = i) && decide (x.instance_number = k)) =
      if id = i ∧ k < H / t.period then 1 else 0 := by
  unfold taskInstances
  rw [List.countP_map]
  show (List.range (H / t.period)).countP
      (fun j => decide (id = i) && decide (j = k)) = _
  by_cases hid : id = i
  · subst hid
    have hcg : (fun j => decide (id = id) && decide (j = k)) =
        (fun j => decide (j = k)) := by
      funext j
      simp
    rw [hcg, countP_range_eq]
    by_cases hk : k < H / t.period
    · rw [if_pos hk, if_pos ⟨rfl, hk⟩]
    · rw [if_neg hk, if_neg (by tauto)]
  · have hcg : (fun j => decide (id = i) && decide (j = k)) =
        (fun _ => false) := by
      funext j
      simp [hid]
    rw [hcg, if_neg (by tauto)]
    simp

/-- Bounds on the identities enumerated by `allExecutionsAux`. -/
theorem allExecutionsAux_mem_bounds (H : Nat) :
    ∀ (tasks : List TaskDefinition) (base : Nat) (x : ScheduledExecution),
      x ∈ allExecutionsAux H tasks base →
      base ≤ x.task_id ∧ x.task_id < base + tasks.length ∧
      x.instance_number < H / (tasks.getD (x.task_id - base) default).period := by
  intro tasks
  induction tasks with
  | nil =>
      intro base x hx
      simp [allExecutionsAux] at hx
  | cons t rest ih =>
      intro base x hx
      rw [allExecutionsAux, List.mem_append] at hx
      rcases hx with hx | hx
      · simp only [taskInstances, List.mem_map, List.mem_range] at hx
        obtain ⟨inst, hinst, hxeq⟩ := hx
        subst hxeq
        refine ⟨Nat.le_refl base, by simp, ?_⟩
        simpa using hinst
      · obtain ⟨hb, hlt, hinst⟩ := ih (base + 1) x hx
        refine ⟨by omega, by simp only [List.length_cons]; omega, ?_⟩
        have h1 : x.task_id - base = (x.task_id - (base + 1)) + 1 := by omega
        rw [h1, List.getD_cons_succ]
        exact hinst

/-- Each in-range (task id, instance) pair occurs exactly once among the
enumerated instances. -/
theorem allExecutionsAux_countP_pair (H i k : Nat) :
    ∀ (tasks : List TaskDefinition) (base : Nat), base ≤ i → i < base + tasks.length →
    (allExecutionsAux H tasks base).countP
        (fun x => decide (x.task_id = i) && decide (x.instance_number = k)) =
      (if k < H / (tasks.getD (i - base) default).period then 1 else 0) := by
  intro tasks
  induction tasks with
  | nil =>
      intro base h1 h2
      simp at h2
      omega
  | cons t rest ih =>
      intro base h1 h2
      rw [allExecutionsAux, List.countP_append, taskInstances_countP_pair]
      by_cases hib : i = base
      · subst hib
        have hzero : (allExecutionsAux H rest (i + 1)).countP
            (fun x => decide (x.task_id = i) && decide (x.instance_number = k)) = 0 := by
          rw [List.countP_eq_zero]
          intro a ha
          have := (allExecutionsAux_mem_bounds H rest (i + 1) a ha).1
          simp only [Bool.and_eq_true, decide_eq_true_eq]
          intro hcontra
          omega
        rw [hzero]
        have hsub : i - i = 0 := by omega
        rw [hsub, List.getD_cons_zero]
        split_ifs <;> omega
      · rw [if_neg (by tauto)]
        have h1b : base + 1 ≤ i := by omega
        have h2b : i < (base + 1) + rest.length := by
          simp only [List.length_cons] at h2
          omega
        rw [ih (base + 1) h1b h2b]
        have hix : i - base = (i - (base + 1)) + 1 := by omega
        rw [hix, List.getD_cons_succ]
        omega

/-- Partition of the length of a table over the in-range (task id, instance)
pairs. -/
theorem length_eq_sum_sigma_countP (n : Nat) (E : Nat → Nat) :
    ∀ (l : List ScheduledExecution),
      (∀ x ∈ l, x.task_id < n ∧ x.instance_number < E x.task_id) →
      l.length = ∑ p in (Finset.range n).sigma (fun i => Finset.range (E i)),
        l.countP (fun x => decide (x.task_id = p.1) && decide (x.instance_number = p.2)) := by
  intro l
  induction l with
  | nil => simp
  | cons x rest ih =>
      intro hl
      have hx := hl x (List.mem_cons_self x rest)
      rw [List.length_cons, ih (fun y hy => hl y (List.mem_cons_of_mem x hy))]
      simp only [List.countP_cons]
      rw [Finset.sum_add_distrib]
      have hone : ∑ p in (Finset.range n).sigma (fun i => Finset.range (E i)),
          (if (decide (x.task_id = p.1) && decide (x.instance_number = p.2)) = true
            then 1 else 0) = 1 := by
        rw [Finset.sum_eq_single (⟨x.task_id, x.instance_number⟩ :
          (_ : Nat) × Nat)]
        · simp
        · intro b hb hne
          rw [if_neg]
          simp only [Bool.and_eq_true, decide_eq_true_eq]
          intro hcontra
          exact hne (Sigma.ext hcontra.1.symm (heq_of_eq hcontra.2.symm))
        · intro habs
          exfalso
          apply habs
          rw [Finset.mem_sigma]
          exact ⟨Finset.mem_range.mpr hx.1, Finset.mem_range.mpr hx.2⟩
      omega

/-- One placement step appends at most one entry. -/
theorem scheduleStep_length_le (btu H : Nat) (tasks : List TaskDefinition)
    (table : List ScheduledExecution) (e : ScheduledExecution) :
    (scheduleStep btu H tasks table e).length ≤ table.length + 1 := by
  simp only [scheduleStep]
  by_cases hconf : table.any (fun sch => has_timing_conflict e sch) = true
  · rw [if_pos hconf]
    cases hres : rescheduleLoop btu H (tasks.getD e.task_id default).worst_case_execution_time
        (tasks.getD e.task_id default).deadline
        (e.instance_number * (tasks.getD e.task_id default).period) e table
        (H + 1) e.start_time with
    | none =>
        dsimp only
        omega
    | some te =>
        dsimp only
        simp
  · rw [if_neg hconf]
    simp

/-- The placement fold appends at most one entry per pending instance. -/
theorem foldl_scheduleStep_length_le (btu H : Nat) (tasks : List TaskDefinition)
    (l : List ScheduledExecution) :
    ∀ acc, (l.foldl (scheduleStep btu H tasks) acc).length ≤ acc.length + l.length := by
  induction l with
  | nil => intro acc; simp
  | cons e rest ih =>
      intro acc
      rw [List.foldl_cons]
      have h1 := ih (scheduleStep btu H tasks acc e)
      have h2 := scheduleStep_length_le btu H tasks acc e
      simp only [List.length_cons]
      omega

/-- The generated table never has more entries than the enumerated
instances. -/
theorem generate_table_length_le (btu H : Nat) (tasks : List TaskDefinition) :
    (generate_schedule_table btu H tasks).length ≤
      (tasks.map (fun t => H / t.period)).sum := by
  unfold generate_schedule_table
  by_cases he : tasks.isEmpty = true
  · rw [if_pos he]
    simp
  · rw [if_neg he]
    rw [List.length_mergeSort]
    have h1 := foldl_scheduleStep_length_le btu H tasks
      ((allExecutions tasks H).mergeSort (releaseOrder tasks)) []
    rw [List.length_mergeSort] at h1
    have h2 : (allExecutions tasks H).length = (tasks.map (fun t => H / t.period)).sum :=
      allExecutionsAux_length H tasks 0
    simp only [List.length_nil] at h1
    omega

/-- Every entry of the generated table carries an in-range
(task id, instance) identity. -/
theorem generate_table_mem_bounds (btu H : Nat) (tasks : List TaskDefinition) :
    ∀ x ∈ generate_schedule_table btu H tasks,
      x.task_id < tasks.length ∧
      x.instance_number < H / (tasks.getD x.task_id default).period := by
  intro x hx
  unfold generate_schedule_table at hx
  by_cases he : tasks.isEmpty = true
  · rw [if_pos he] at hx
    simp at hx
  · rw [if_neg he] at hx
    have hperm1 := List.mergeSort_perm
      (((allExecutions tasks H).mergeSort (releaseOrder tasks)).foldl
        (scheduleStep btu H tasks) [])
      (fun (a b : ScheduledExecution) => decide (a.start_time < b.start_time))
    have hx2 := hperm1.mem_iff.mp hx
    rcases foldl_scheduleStep_mem btu H tasks _ [] x hx2 with h0 | ⟨e, he2, hid, hinst⟩
    · simp at h0
    · have he3 := (List.mergeSort_perm (allExecutions tasks H)
        (releaseOrder tasks)).mem_iff.mp he2
      obtain ⟨hb, hlt, hbound⟩ := allExecutionsAux_mem_bounds H tasks 0 e he3
      rw [hid, hinst]
      constructor
      · omega
      · have hz : e.task_id - 0 = e.task_id := by omega
        rw [hz] at hbound
        exact hbound

/-- Each in-range (task id, instance) pair occurs at most once in the
generated table. -/
theorem generate_table_countP_pair_le (btu H : Nat) (tasks : List TaskDefinition)
    (i k : Nat) (hi : i < tasks.length)
    (hk : k < H / (tasks.getD i default).period) :
    (generate_schedule_table btu H tasks).countP
      (fun x => decide (x.task_id = i) && decide (x.instance_number = k)) ≤ 1 := by
  unfold generate_schedule_table
  by_cases he : tasks.isEmpty = true
  · rw [if_pos he]
    simp
  · rw [if_neg he]
    have hperm1 := List.mergeSort_perm
      (((allExecutions tasks H).mergeSort (releaseOrder tasks)).foldl
        (scheduleStep btu H tasks) [])
      (fun (a b : ScheduledExecution) => decide (a.start_time < b.start_time))
    rw [List.Perm.countP_eq _ hperm1]
    have h1 : ((((allExecutions tasks H).mergeSort (releaseOrder tasks)).foldl
        (scheduleStep btu H tasks) []).countP
          (fun x => decide (x.task_id = i) && decide (x.instance_number = k))) ≤
        ([] : List ScheduledExecution).countP
          (fun x => decide (x.task_id = i) && decide (x.instance_number = k)) +
        (((allExecutions tasks H).mergeSort (releaseOrder tasks)).countP
          (fun x => decide (x.task_id = i) && decide (x.instance_number = k))) :=
      foldl_scheduleStep_countP_le btu H tasks
        (fun a b => decide (a = i) && decide (b = k)) _ []
    have h2 : (((allExecutions tasks H).mergeSort (releaseOrder tasks)).countP
        (fun x => decide (x.task_id = i) && decide (x.instance_number = k))) =
        ((allExecutions tasks H).countP
          (fun x => decide (x.task_id = i) && decide (x.instance_number = k))) :=
      List.Perm.countP_eq _ (List.mergeSort_perm (allExecutions tasks H) (releaseOrder tasks))
    have h3 : ((allExecutions tasks H).countP
        (fun x => decide (x.task_id = i) && decide (x.instance_number = k))) = 1 := by
      unfold allExecutions
      rw [allExecutionsAux_countP_pair H i k tasks 0 (by omega) (by omega)]
      have hz : i - 0 = i := by omega
      rw [hz, if_pos hk]
    simp only [List.countP_nil] at h1
    omega

/-- A list sum over task entries as a `Finset.range` sum. -/
theorem map_sum_eq_range_sum (l : List TaskDefinition) (f : TaskDefinition → Nat) :
    (l.map f).sum = ∑ i in Finset.range l.length, f (l.getD i default) := by
  induction l with
  | nil => simp
  | cons t rest ih =>
      rw [List.map_cons, List.sum_cons, ih, List.length_cons, Finset.sum_range_succ']
      simp only [List.getD_cons_succ, List.getD_cons_zero]
      rw [Nat.add_comm]

/-- Branch equation: `finalize_schedule` with no tasks. -/
theorem finalize_eq_empty (st : TaskSchedulerState)
    (h1 : st.task_definitions.isEmpty = true) :
    finalize_schedule st =
      ({ is_schedulable := false, hyperperiod := 0, basic_time_unit := 0,
         cpu_utilization := 0, total_executions_per_hyperperiod := 0,
         conflicts := ["No tasks defined"], warnings := [] }, st) := by
  simp only [finalize_schedule]
  rw [if_pos h1]

/-- Branch equation: `finalize_schedule` failing the utilization test. -/
theorem finalize_eq_overU (st : TaskSchedulerState)
    (h1 : ¬ st.task_definitions.isEmpty = true)
    (h2 : check_schedulability st.task_definitions = false) :
    finalize_schedule st =
      ({ is_schedulable := false,
         hyperperiod := compute_hyperperiod st.basic_time_unit st.task_definitions,
         basic_time_unit := st.basic_time_unit, cpu_utilization := 0,
         total_executions_per_hyperperiod := 0,
         conflicts := ["Failed Liu & Layland schedulability test"], warnings := [] },
        { st with hyperperiod := compute_hyperperiod st.basic_time_unit st.task_definitions }) := by
  simp only [finalize_schedule]
  rw [if_neg h1, if_pos h2]

/-- Branch equation: `finalize_schedule` with unplaceable instances. -/
theorem finalize_eq_unplaced (st : TaskSchedulerState)
    (h1 : ¬ st.task_definitions.isEmpty = true)
    (h2 : ¬ check_schedulability st.task_definitions = false)
    (h3 : (generate_schedule_table st.basic_time_unit
        (compute_hyperperiod st.basic_time_unit st.task_definitions)
        st.task_definitions).length <
      expected_executions (compute_hyperperiod st.basic_time_unit st.task_definitions)
        st.task_definitions) :
    finalize_schedule st =
      ({ is_schedulable := false,
         hyperperiod := compute_hyperperiod st.basic_time_unit st.task_definitions,
         basic_time_unit := st.basic_time_unit,
         cpu_utilization := total_utilization st.task_definitions,
         total_executions_per_hyperperiod := (generate_schedule_table st.basic_time_unit
           (compute_hyperperiod st.basic_time_unit st.task_definitions)
           st.task_definitions).length,
         conflicts := ["Some task instances could not be scheduled"], warnings := [] },
        { st with hyperperiod := compute_hyperperiod st.basic_time_unit st.task_definitions,
                  schedule_table := generate_schedule_table st.basic_time_unit
                    (compute_hyperperiod st.basic_time_unit st.task_definitions)
                    st.task_definitions }) := by
  simp only [finalize_schedule]
  rw [if_neg h1, if_neg h2, if_pos h3]

/-- Branch equation: `finalize_schedule` reporting schedulable. -/
theorem finalize_eq_ok (st : TaskSchedulerState)
    (h1 : ¬ st.task_definitions.isEmpty = true)
    (h2 : ¬ check_schedulability st.task_definitions = false)
    (h3 : ¬ (generate_schedule_table st.basic_time_unit
        (compute_hyperperiod st.basic_time_unit st.task_definitions)
        st.task_definitions).length <
      expected_executions (compute_hyperperiod st.basic_time_unit st.task_definitions)
        st.task_definitions) :
    finalize_schedule st =
      ({ is_schedulable := true,
         hyperperiod := compute_hyperperiod st.basic_time_unit st.task_definitions,
         basic_time_unit := st.basic_time_unit,
         cpu_utilization := total_utilization st.task_definitions,
         total_executions_per_hyperperiod := (generate_schedule_table st.basic_time_unit
           (compute_hyperperiod st.basic_time_unit st.task_definitions)
           st.task_definitions).length,
         conflicts := [],
         warnings :=
           (if (8 : ℚ) / 10 < total_utilization st.task_definitions
             then ["High CPU utilization"] else []) ++
           (if 10000000000 < compute_hyperperiod st.basic_time_unit st.task_definitions
             then ["Long hyperperiod"] else []) },
        { st with hyperperiod := compute_hyperperiod st.basic_time_unit st.task_definitions,
                  schedule_table := generate_schedule_table st.basic_time_unit
                    (compute_hyperperiod st.basic_time_unit st.task_definitions)
                    st.task_definitions }) := by
  simp only [finalize_schedule]
  rw [if_neg h1, if_neg h2, if_neg h3]

/-- A schedulable report can only come from the final branch; recover the
branch conditions and the report fields. -/
theorem finalize_schedulable_inv (st : TaskSchedulerState)
    (h : (finalize_schedule st).1.is_schedulable = true) :
    st.task_definitions.isEmpty = false ∧
    check_schedulability st.task_definitions = true ∧
    expected_executions (compute_hyperperiod st.basic_time_unit st.task_definitions)
        st.task_definitions ≤
      (generate_schedule_table st.basic_time_unit
        (compute_hyperperiod st.basic_time_unit st.task_definitions)
        st.task_definitions).length ∧
    (finalize_schedule st).1.hyperperiod =
      compute_hyperperiod st.basic_time_unit st.task_definitions ∧
    (finalize_schedule st).1.total_executions_per_hyperperiod =
      (generate_schedule_table st.basic_time_unit
        (compute_hyperperiod st.basic_time_unit st.task_definitions)
        st.task_definitions).length ∧
    (finalize_schedule st).2.schedule_table =
      generate_schedule_table st.basic_time_unit
        (compute_hyperperiod st.basic_time_unit st.task_definitions)
        st.task_definitions := by
  by_cases h1 : st.task_definitions.isEmpty = true
  · rw [finalize_eq_empty st h1] at h
    simp at h
  · by_cases h2 : check_schedulability st.task_definitions = false
    · rw [finalize_eq_overU st h1 h2] at h
      simp at h
    · by_cases h3 : (generate_schedule_table st.basic_time_unit
          (compute_hyperperiod st.basic_time_unit st.task_definitions)
          st.task_definitions).length <
        expected_executions (compute_hyperperiod st.basic_time_unit st.task_definitions)
          st.task_definitions
      · rw [finalize_eq_unplaced st h1 h2 h3] at h
        simp at h
      · rw [finalize_eq_ok st h1 h2 h3]
        refine ⟨by simpa using h1, by simpa using h2, by omega, rfl, rfl, rfl⟩

/-- Lemma: `finalize_schedule` never changes the basic time unit or the task
set. -/
theorem finalize_schedule_preserves (st : TaskSchedulerState) :
    (finalize_schedule st).2.basic_time_unit = st.basic_time_unit ∧
    (finalize_schedule st).2.task_definitions = st.task_definitions := by
  by_cases h1 : st.task_definitions.isEmpty = true
  · rw [finalize_eq_empty st h1]
    exact ⟨rfl, rfl⟩
  · by_cases h2 : check_schedulability st.task_definitions = false
    · rw [finalize_eq_overU st h1 h2]
      exact ⟨rfl, rfl⟩
    · by_cases h3 : (generate_schedule_table st.basic_time_unit
          (compute_hyperperiod st.basic_time_unit st.task_definitions)
          st.task_definitions).length <
        expected_executions (compute_hyperperiod st.basic_time_unit st.task_definitions)
          st.task_definitions
      · rw [finalize_eq_unplaced st h1 h2 h3]
        exact ⟨rfl, rfl⟩
      · rw [finalize_eq_ok st h1 h2 h3]
        exact ⟨rfl, rfl⟩

/-- The report computed by `finalize_schedule` depends only on the basic
time unit and the task set, not on the previously stored table or
hyperperiod. -/
theorem finalize_report_congr (b : Nat) (tasks : List TaskDefinition)
    (tbl1 tbl2 : List ScheduledExecution) (hp1 hp2 : Nat) :
    (finalize_schedule ⟨b, tasks, tbl1, hp1⟩).1 =
      (finalize_schedule ⟨b, tasks, tbl2, hp2⟩).1 := by
  by_cases h1 : tasks.isEmpty = true
  · rw [finalize_eq_empty ⟨b, tasks, tbl1, hp1⟩ h1,
      finalize_eq_empty ⟨b, tasks, tbl2, hp2⟩ h1]
  · by_cases h2 : check_schedulability tasks = false
    · rw [finalize_eq_overU ⟨b, tasks, tbl1, hp1⟩ h1 h2,
        finalize_eq_overU ⟨b, tasks, tbl2, hp2⟩ h1 h2]
    · by_cases h3 : (generate_schedule_table b (compute_hyperperiod b tasks) tasks).length <
          expected_executions (compute_hyperperiod b tasks) tasks
      · rw [finalize_eq_unplaced ⟨b, tasks, tbl1, hp1⟩ h1 h2 h3,
          finalize_eq_unplaced ⟨b, tasks, tbl2, hp2⟩ h1 h2 h3]
      · rw [finalize_eq_ok ⟨b, tasks, tbl1, hp1⟩ h1 h2 h3,
          finalize_eq_ok ⟨b, tasks, tbl2, hp2⟩ h1 h2 h3]

/-- Calling `finalize_schedule` again on the state left by a first call
recomputes the same report: there is no single-finalize guard in
`task_scheduler.cpp:262-317`. -/
theorem finalize_idempotent_report (st : TaskSchedulerState) :
    (finalize_schedule ((finalize_schedule st).2)).1 = (finalize_schedule st).1 := by
  obtain ⟨hb, ht⟩ := finalize_schedule_preserves st
  have hstate : (finalize_schedule st).2 =
      (⟨st.basic_time_unit, st.task_definitions,
        (finalize_schedule st).2.schedule_table,
        (finalize_schedule st).2.hyperperiod⟩ : TaskSchedulerState) := by
    rw [← hb, ← ht]
  rw [hstate]
  exact finalize_report_congr st.basic_time_unit st.task_definitions
    ((finalize_schedule st).2.schedule_table) st.schedule_table
    ((finalize_schedule st).2.hyperperiod) st.hyperperiod

/-- A single task with positive period and `WCET ≤ period` always
finalizes as schedulable: the hyperperiod equals the period, one instance
is enumerated and placed without conflict, and the utilization test
passes. -/
theorem finalize_single (btu : Nat) (t : TaskDefinition)
    (tbl : List ScheduledExecution) (hp0 : Nat)
    (hper : 0 < t.period) (hw : t.worst_case_execution_time ≤ t.period) :
    (finalize_schedule ⟨btu, [t], tbl, hp0⟩).1.is_schedulable = true := by
  have hperQ : (0 : ℚ) < (t.period : ℚ) := by exact_mod_cast hper
  have hU : total_utilization [t] ≤ 1 := by
    show (0 : ℚ) + (t.worst_case_execution_time : ℚ) / (t.period : ℚ) ≤ 1
    rw [zero_add, div_le_one hperQ]
    exact_mod_cast hw
  have hchk : check_schedulability [t] = true := by
    unfold check_schedulability
    rw [if_neg (not_lt.mpr hU)]
  have hH : compute_hyperperiod btu [t] = t.period := rfl
  have hdiv : t.period / t.period = 1 := Nat.div_self hper
  have hall : allExecutions [t] t.period =
      [⟨0, 0, t.worst_case_execution_time, 0⟩] := by
    show taskInstances 0 t t.period ++ [] = _
    rw [List.append_nil]
    unfold taskInstances
    rw [hdiv]
    simp [List.range_succ]
  have hgen : generate_schedule_table btu t.period [t] =
      [⟨0, 0, t.worst_case_execution_time, 0⟩] := by
    unfold generate_schedule_table
    rw [if_neg (by simp)]
    rw [hall, mergeSort_single, List.foldl_cons, List.foldl_nil]
    have hstep : scheduleStep btu t.period [t] []
        ⟨0, 0, t.worst_case_execution_time, 0⟩ =
        [⟨0, 0, t.worst_case_execution_time, 0⟩] := by
      simp only [scheduleStep]
      rw [if_neg (by simp)]
      rfl
    rw [hstep, mergeSort_single]
  have hexp : expected_executions t.period [t] = 1 := by
    show 0 + t.period / t.period = 1
    rw [hdiv]
  have hok := finalize_eq_ok ⟨btu, [t], tbl, hp0⟩ (by simp)
    (by rw [show check_schedulability (⟨btu, [t], tbl, hp0⟩ :
        TaskSchedulerState).task_definitions = true from hchk]; simp)
    (by show ¬ (generate_schedule_table btu (compute_hyperperiod btu [t]) [t]).length <
          expected_executions (compute_hyperperiod btu [t]) [t]
        rw [hH, hgen, hexp]
        simp)
  rw [hok]

/-- C3 (confirmed): for admission-valid task sets, `finalize_schedule`
rejects whenever the total utilization `Σ WCETᵢ/Periodᵢ` strictly exceeds
1, and a single task with `WCET = period = deadline` (period a multiple
of the basic time unit) — utilization exactly 1 — is accepted. -/
theorem utilization_admission :
    (∀ (btu : Nat) (tasks : List TaskDefinition)
        (tbl : List ScheduledExecution) (hp0 : Nat),
      (∀ t ∈ tasks, validate_task_definition btu t = true) →
      1 < total_utilization tasks →
      (finalize_schedule ⟨btu, tasks, tbl, hp0⟩).1.is_schedulable = false) ∧
    (∀ (btu : Nat) (t : TaskDefinition)
        (tbl : List ScheduledExecution) (hp0 : Nat),
      0 < btu → 0 < t.period → t.period % btu = 0 →
      t.worst_case_execution_time = t.period → t.deadline = t.period →
      (finalize_schedule ⟨btu, t :: [], tbl, hp0⟩).1.is_schedulable = true) := by
  constructor
  · intro btu tasks tbl hp0 hv hU
    have hne : ¬ tasks.isEmpty = true := by
      cases tasks with
      | nil =>
          exfalso
          have hz : total_utilization [] = 0 := rfl
          rw [hz] at hU
          norm_num at hU
      | cons a l => simp
    have hchk : check_schedulability tasks = false := by
      unfold check_schedulability
      rw [if_pos hU]
    rw [finalize_eq_overU ⟨btu, tasks, tbl, hp0⟩ hne hchk]
  · intro btu t tbl hp0 hbtu hper hdvd hw hd
    exact finalize_single btu t tbl hp0 hper (le_of_eq hw)

/-- Witness for `utilization_admission`: the overload scenario of the spec
(two period-10 tasks with WCETs 8 and 5, utilization 1.3) is rejected,
and a full-utilization single task (period = WCET = deadline = 10,
BTU 1) is accepted. -/
theorem utilization_admission_witness :
    (finalize_schedule ⟨1, [⟨"A", 10, 8, 10, 10, false⟩, ⟨"B", 10, 5, 10, 5, false⟩],
        [], 0⟩).1.is_schedulable = false ∧
    (finalize_schedule ⟨1, [⟨"C", 10, 10, 10, 0, false⟩],
        [], 0⟩).1.is_schedulable = true := by
  constructor
  · refine utilization_admission.1 1
      [⟨"A", 10, 8, 10, 10, false⟩, ⟨"B", 10, 5, 10, 5, false⟩] [] 0 (by decide) ?_
    show (1 : ℚ) < total_utilization [⟨"A", 10, 8, 10, 10, false⟩, ⟨"B", 10, 5, 10, 5, false⟩]
    norm_num [total_utilization]
  · exact utilization_admission.2 1 ⟨"C", 10, 10, 10, 0, false⟩ [] 0
      (by decide) (by decide) (by decide) rfl rfl

/-- C4 (confirmed): whenever `finalize_schedule` reports schedulable, the
finalized table contains exactly `Σ H/Pᵢ` entries, and each task `i`
contributes exactly one entry for every instance `k < H/Pᵢ`. -/
theorem hyperperiod_coverage (st : TaskSchedulerState)
    (h : (finalize_schedule st).1.is_schedulable = true) :
    (finalize_schedule st).1.total_executions_per_hyperperiod =
      expected_executions (finalize_schedule st).1.hyperperiod st.task_definitions ∧
    ((finalize_schedule st).2.schedule_table).length =
      expected_executions (finalize_schedule st).1.hyperperiod st.task_definitions ∧
    (∀ i, i < st.task_definitions.length →
      ∀ k, k < (finalize_schedule st).1.hyperperiod /
          (st.task_definitions.getD i default).period →
        ((finalize_schedule st).2.schedule_table).countP
          (fun x => decide (x.task_id = i) && decide (x.instance_number = k)) = 1) := by
  obtain ⟨hne, hchk, hge, hH, htot, htbl⟩ := finalize_schedulable_inv st h
  set b := st.basic_time_unit with hb
  set tasks := st.task_definitions with htasks
  set H := compute_hyperperiod b tasks with hHdef
  set table := generate_schedule_table b H tasks with htable
  have hlen_le : table.length ≤ (tasks.map (fun t => H / t.period)).sum :=
    generate_table_length_le b H tasks
  have hexp_sum : expected_executions H tasks = (tasks.map (fun t => H / t.period)).sum :=
    expected_executions_eq_sum H tasks
  have hlen : table.length = expected_executions H tasks := by omega
  refine ⟨?_, ?_, ?_⟩
  · rw [htot, hH, hlen]
  · rw [htbl, hH, hlen]
  · intro i hi k hk
    rw [htbl]
    rw [hH] at hk
    have hmem : ∀ x ∈ table, x.task_id < tasks.length ∧
        x.instance_number < H / (tasks.getD x.task_id default).period :=
      generate_table_mem_bounds b H tasks
    have hpart := length_eq_sum_sigma_countP tasks.length
      (fun j => H / (tasks.getD j default).period) table hmem
    have hone : (∑ p in (Finset.range tasks.length).sigma
        (fun j => Finset.range (H / (tasks.getD j default).period)), 1) =
        (tasks.map (fun t => H / t.period)).sum := by
      rw [Finset.sum_const, smul_eq_mul, Nat.mul_one, Finset.card_sigma]
      simp only [Finset.card_range]
      rw [map_sum_eq_range_sum]
    have hle1 : ∀ p ∈ (Finset.range tasks.length).sigma
        (fun j => Finset.range (H / (tasks.getD j default).period)),
        table.countP (fun x => decide (x.task_id = p.1) &&
          decide (x.instance_number = p.2)) ≤ 1 := by
      intro p hp
      rw [Finset.mem_sigma] at hp
      exact generate_table_countP_pair_le b H tasks p.1 p.2
        (Finset.mem_range.mp hp.1) (Finset.mem_range.mp hp.2)
    have hsum_eq : (∑ p in (Finset.range tasks.length).sigma
        (fun j => Finset.range (H / (tasks.getD j default).period)),
        table.countP (fun x => decide (x.task_id = p.1) &&
          decide (x.instance_number = p.2))) =
        (∑ p in (Finset.range tasks.length).sigma
          (fun j => Finset.range (H / (tasks.getD j default).period)), 1) := by
      rw [← hpart, hone]
      omega
    have hall := (Finset.sum_eq_sum_iff_of_le hle1).mp hsum_eq
    have hp_mem : (⟨i, k⟩ : (_ : Nat) × Nat) ∈ (Finset.range tasks.length).sigma
        (fun j => Finset.range (H / (tasks.getD j default).period)) :=
      Finset.mem_sigma.mpr ⟨Finset.mem_range.mpr hi, Finset.mem_range.mpr hk⟩
    exact hall ⟨i, k⟩ hp_mem

/-- Witness for `hyperperiod_coverage` at a concrete schedulable
single-task set (period 10, WCET 2, BTU 1). -/
theorem hyperperiod_coverage_witness :
    (finalize_schedule ⟨1, [⟨"T", 10, 2, 10, 0, false⟩], [], 0⟩).1.is_schedulable = true ∧
    (finalize_schedule ⟨1, [⟨"T", 10, 2, 10, 0, false⟩],
        [], 0⟩).1.total_executions_per_hyperperiod =
      expected_executions
        (finalize_schedule ⟨1, [⟨"T", 10, 2, 10, 0, false⟩], [], 0⟩).1.hyperperiod
        [⟨"T", 10, 2, 10, 0, false⟩] :=
  have hs : (finalize_schedule ⟨1, [⟨"T", 10, 2, 10, 0, false⟩],
      [], 0⟩).1.is_schedulable = true :=
    finalize_single 1 ⟨"T", 10, 2, 10, 0, false⟩ [] 0 (by decide) (by decide)
  ⟨hs, (hyperperiod_coverage ⟨1, [⟨"T", 10, 2, 10, 0, false⟩], [], 0⟩ hs).1⟩

/-- C5 (amended): a second `finalize_schedule` on the unchanged task set
is not rejected — it recomputes the schedule and returns a report equal
to the first one; `finalize_schedule` has no single-finalize guard. -/
theorem finalize_schedule_second_call (st : TaskSchedulerState) :
    (finalize_schedule ((finalize_schedule st).2)).1 = (finalize_schedule st).1 :=
  finalize_idempotent_report st

/-- C5 counterexample: on a concrete schedulable single-task scheduler,
the second `finalize_schedule` call also reports `schedulable = true`
instead of the negative result the claim demands. -/
theorem finalize_schedule_second_call_counterexample :
    (finalize_schedule ⟨1, [⟨"T", 10, 2, 10, 0, false⟩],
        [], 0⟩).1.is_schedulable = true ∧
    (finalize_schedule (finalize_schedule ⟨1, [⟨"T", 10, 2, 10, 0, false⟩],
        [], 0⟩).2).1.is_schedulable = true := by
  have hfirst : (finalize_schedule ⟨1, [⟨"T", 10, 2, 10, 0, false⟩],
      [], 0⟩).1.is_schedulable = true :=
    finalize_single 1 ⟨"T", 10, 2, 10, 0, false⟩ [] 0 (by decide) (by decide)
  refine ⟨hfirst, ?_⟩
  rw [finalize_idempotent_report ⟨1, [⟨"T", 10, 2, 10, 0, false⟩], [], 0⟩]
  exact hfirst

/-- One round of the bitwise CRC-32 inner loop (`event_log.cpp:17-19`):
`crc = (crc & 1) ? ((crc >> 1) ^ 0xEDB88320) : (crc >> 1)`. -/
def crc32_round (crc : Nat) : Nat :=
  if crc % 2 = 1 then (crc / 2) ^^^ 0xEDB88320 else crc / 2

/-- Model of `internal_calculate_checksum_eventlog` (`event_log.cpp:12-22`):
CRC-32 over the payload bytes, initial value `0xFFFFFFFF`, final xor
`0xFFFFFFFF`. -/
def internal_calculate_checksum_eventlog (data : List Nat) : Nat :=
  (data.foldl
    (fun crc byte => (List.range 8).foldl (fun c _ => crc32_round c) (crc ^^^ byte))
    0xFFFFFFFF) ^^^ 0xFFFFFFFF

/-- Model of `EventHeader` (`event_log.h:35-41`); all fields as numeric values. -/
structure EventHeader where
  timestamp_ns : Nat
  sequence_number : Nat
  event_type : Nat
  data_size_bytes : Nat
  data_checksum : Nat
deriving Repr, DecidableEq

/-- The `EventLogger` members that `write_log_entry` touches
(`event_log.h:43-52`): the atomic sequence counter and the two stats
counters. The stream itself is outside the embedding; each call carries
the observed stream state. -/
structure EventLogger where
  current_sequence_number : Nat
  total_events_logged : Nat
  total_bytes_written : Nat
deriving Repr, DecidableEq

/-- Freshly constructed logger (`event_log.cpp:28-33`): sequence counter
starts at 0. -/
def initLogger : EventLogger :=
  { current_sequence_number := 0, total_events_logged := 0, total_bytes_written := 0 }

/-- Model of `sizeof(EventHeader)` on the producing host: 8+8+4+4+4 bytes padded
to an 8-byte boundary. -/
def sizeofEventHeader : Nat := 32

/-- Model of `EventLogger::write_log_entry` (`event_log.cpp:73-136`), binary mode.
The header (with the checksum of the payload) and the post-increment of
the sequence counter happen before the stream check; a stream in an
error state (`stream_good = false` models `!is_open() || !good()`) drops
the frame but keeps the advanced counter. The result is the frame
written, if any. -/
def write_log_entry (lg : EventLogger) (ts etype : Nat) (payload : List Nat)
    (stream_good : Bool) : Option EventHeader × EventLogger :=
  let header : EventHeader :=
    { timestamp_ns := ts, sequence_number := lg.current_sequence_number,
      event_type := etype, data_size_bytes := payload.length,
      data_checksum := if 0 < payload.length
        then internal_calculate_checksum_eventlog payload else 0 }
  let lg2 := { lg with current_sequence_number := lg.current_sequence_number + 1 }
  if stream_good = false then (none, lg2)
  else
    (some header,
      { lg2 with total_events_logged := lg2.total_events_logged + 1,
                 total_bytes_written :=
                   lg2.total_bytes_written + sizeofEventHeader + payload.length })

/-- One logging call: timestamp, event type, payload, observed stream
state. -/
def logStep (acc : List (Option EventHeader) × EventLogger)
    (c : Nat × Nat × List Nat × Bool) : List (Option EventHeader) × EventLogger :=
  ((acc.1 ++ [(write_log_entry acc.2 c.1 c.2.1 c.2.2.1 c.2.2.2).1]),
    (write_log_entry acc.2 c.1 c.2.1 c.2.2.1 c.2.2.2).2)

/-- Run a sequence of logging calls on a fresh logger, collecting the
per-call results. -/
def runLogger (calls : List (Nat × Nat × List Nat × Bool)) :
    List (Option EventHeader) × EventLogger :=
  calls.foldl logStep ([], initLogger)

/-- Branch equation: a dropped frame still advances the sequence
counter. -/
theorem write_log_entry_eq_drop (lg : EventLogger) (ts etype : Nat) (payload : List Nat) :
    write_log_entry lg ts etype payload false =
      (none, { lg with current_sequence_number := lg.current_sequence_number + 1 }) := by
  simp only [write_log_entry]
  simp

/-- Branch equation: a written frame carries the pre-increment sequence
number. -/
theorem write_log_entry_eq_ok (lg : EventLogger) (ts etype : Nat) (payload : List Nat) :
    write_log_entry lg ts etype payload true =
      (some { timestamp_ns := ts, sequence_number := lg.current_sequence_number,
              event_type := etype, data_size_bytes := payload.length,
              data_checksum := if 0 < payload.length
                then internal_calculate_checksum_eventlog payload else 0 },
        { lg with current_sequence_number := lg.current_sequence_number + 1,
                  total_events_logged := lg.total_events_logged + 1,
                  total_bytes_written :=
                    lg.total_bytes_written + sizeofEventHeader + payload.length }) := by
  simp only [write_log_entry]
  simp

/-- The logging fold keeps the sequence counter equal to the number of
calls made, and every written frame at call position `i` carries
sequence number `i`. -/
theorem runLogger_inv (calls : List (Nat × Nat × List Nat × Bool)) :
    ∀ st : List (Option EventHeader) × EventLogger,
      st.2.current_sequence_number = st.1.length →
      (∀ i, ∀ hd : EventHeader, st.1[i]? = some (some hd) → hd.sequence_number = i) →
      ((calls.foldl logStep st).2.current_sequence_number =
          (calls.foldl logStep st).1.length ∧
        ∀ i, ∀ hd : EventHeader, (calls.foldl logStep st).1[i]? = some (some hd) →
          hd.sequence_number = i) := by
  induction calls with
  | nil => intro st h1 h2; exact ⟨h1, h2⟩
  | cons c rest ih =>
      intro st h1 h2
      rw [List.foldl_cons]
      refine ih (logStep st c) ?_ ?_
      · show (write_log_entry st.2 c.1 c.2.1 c.2.2.1 c.2.2.2).2.current_sequence_number =
          (st.1 ++ [(write_log_entry st.2 c.1 c.2.1 c.2.2.1 c.2.2.2).1]).length
        cases hg : c.2.2.2 with
        | false =>
            rw [write_log_entry_eq_drop]
            simp [h1]
        | true =>
            rw [write_log_entry_eq_ok]
            simp [h1]
      · intro i hd hi
        show hd.sequence_number = i
        simp only [logStep] at hi
        rcases Nat.lt_or_ge i st.1.length with hilt | hige
        · rw [List.getElem?_append_left hilt] at hi
          exact h2 i hd hi
        · rcases Nat.lt_or_ge i (st.1.length + 1) with hieq | higt
          · have hieq2 : i = st.1.length := by omega
            subst hieq2
            rw [List.getElem?_concat_length] at hi
            simp only [Option.some.injEq] at hi
            revert hi
            cases hg : c.2.2.2 with
            | false =>
                rw [write_log_entry_eq_drop]
                intro hi
                simp at hi
            | true =>
                rw [write_log_entry_eq_ok]
                intro hi
                dsimp only at hi
                simp only [Option.some.injEq] at hi
                rw [← hi]
                exact h1
          · rw [List.getElem?_eq_none (by simp; omega)] at hi
            simp at hi

/-- Written frames, read off positions with strictly increasing assigned
sequence numbers, are pairwise strictly increasing. -/
theorem pairwise_of_positional (base : Nat) (outs : List (Option EventHeader)) :
    (∀ i, ∀ hd : EventHeader, outs[i]? = some (some hd) → hd.sequence_number = base + i) →
    List.Pairwise (fun a b => a.sequence_number < b.sequence_number)
      (outs.filterMap id) := by
  induction outs generalizing base with
  | nil =>
      intro h
      simp
  | cons o rest ih =>
      intro h
      cases o with
      | none =>
          have hstep : (none :: rest).filterMap (@id (Option EventHeader)) =
              rest.filterMap id := by
            simp
          rw [hstep]
          refine ih (base + 1) ?_
          intro i hd hi
          have := h (i + 1) hd (by rw [List.getElem?_cons_succ]; exact hi)
          omega
      | some hd0 =>
          have hstep : (some hd0 :: rest).filterMap (@id (Option EventHeader)) =
              hd0 :: rest.filterMap id := by
            simp
          rw [hstep]
          refine List.Pairwise.cons ?_ (ih (base + 1) (fun i hd hi => by
            have := h (i + 1) hd (by rw [List.getElem?_cons_succ]; exact hi)
            omega))
          intro b hb
          rcases List.mem_filterMap.mp hb with ⟨a, ha, haeq⟩
          have haeq2 : a = some b := haeq
          subst haeq2
          obtain ⟨j, hj⟩ := List.mem_iff_getElem?.mp ha
          have hseqb := h (j + 1) b (by rw [List.getElem?_cons_succ]; exact hj)
          have hseq0 := h 0 hd0 (by simp)
          omega

/-- C8 (confirmed): within one logger instance, the sequence numbers
assigned by `write_log_entry` start at 0 and increase by one per call —
also when the frame is dropped because the stream is in an error state —
so the frame written (if any) at call `i` carries sequence `i`, the
successfully written frames carry strictly increasing sequence numbers,
and no two of them share a sequence number. -/
theorem event_sequence_monotonic (calls : List (Nat × Nat × List Nat × Bool)) :
    (runLogger calls).1.length = calls.length ∧
    (runLogger calls).2.current_sequence_number = calls.length ∧
    (∀ i, ∀ hd : EventHeader, (runLogger calls).1[i]? = some (some hd) →
      hd.sequence_number = i) ∧
    List.Pairwise (fun a b => a.sequence_number < b.sequence_number)
      ((runLogger calls).1.filterMap id) := by
  have hlen : ∀ (l : List (Nat × Nat × List Nat × Bool))
      (st : List (Option EventHeader) × EventLogger),
      (l.foldl logStep st).1.length = st.1.length + l.length := by
    intro l
    induction l with
    | nil => intro st; simp
    | cons c rest ih =>
        intro st
        rw [List.foldl_cons, ih]
        simp [logStep]
        omega
  obtain ⟨h1, h2⟩ := runLogger_inv calls ([], initLogger) rfl
    (by intro i hd hi; simp at hi)
  have hlen0 : (runLogger calls).1.length = calls.length := by
    show (List.foldl logStep ([], initLogger) calls).1.length = calls.length
    rw [hlen calls ([], initLogger)]
    simp
  refine ⟨hlen0, by
    show (List.foldl logStep ([], initLogger) calls).2.current_sequence_number = calls.length
    rw [h1]
    exact hlen0, h2, ?_⟩
  exact pairwise_of_positional 0 (runLogger calls).1
    (fun i hd hi => by rw [h2 i hd hi]; omega)

/-- Witness for `event_sequence_monotonic` at a concrete three-call run
whose middle frame is dropped by a stream error. -/
theorem event_sequence_monotonic_witness :
    (runLogger [(5, 1, [], true), (6, 2, [], false), (9, 3, [], true)]).2.current_sequence_number
      = 3 ∧
    ({ timestamp_ns := 5, sequence_number := 0, event_type := 1,
       data_size_bytes := 0, data_checksum := 0 } : EventHeader).sequence_number = 0 :=
  ⟨(event_sequence_monotonic [(5, 1, [], true), (6, 2, [], false), (9, 3, [], true)]).2.1,
    (event_sequence_monotonic [(5, 1, [], true), (6, 2, [], false), (9, 3, [], true)]).2.2.1 0
      { timestamp_ns := 5, sequence_number := 0, event_type := 1,
        data_size_bytes := 0, data_checksum := 0 } (by rfl)⟩

namespace Pool

/-- Model of `MemoryPool::NUM_SIZE_CLASSES` (`memory_pool.h:30`). -/
def NUM_SIZE_CLASSES : Nat := 16

/-- Model of `MemoryPool::MIN_ALLOCATION_SIZE` (`memory_pool.h:31`). -/
def MIN_ALLOCATION_SIZE : Nat := 64

/-- Model of `sizeof(MemoryPool::Block)` on an LP64 host: `size_t size` (8) +
`size_t size_class` (8) + `bool is_free` (1, padded to 8) +
`Block* next_free` (8) + `uint32_t magic` (4, struct padded to 40). -/
def sizeofBlock : Nat := 40

/-- The system page size assumed by the model (`sysconf(_SC_PAGE_SIZE)`,
with the 4096 fallback of `memory_pool.cpp:156-160`). -/
def page_size : Nat := 4096

/-- Model of `align_up` (`memory_pool.cpp:82-84`):
`(value + alignment - 1) & ~(alignment - 1)`, i.e. rounding up to a
multiple of a power-of-two alignment. -/
def align_up (value alignment : Nat) : Nat :=
  (value + alignment - 1) / alignment * alignment

/-- Model of `is_power_of_two` (`memory_pool.cpp:86-88`). -/
def is_power_of_two (value : Nat) : Bool :=
  decide (value ≠ 0) && decide (value &&& (value - 1) = 0)

/-- Model of `MemoryPool::Block` (`memory_pool.cpp:14-31`) with its header address
in the flat abstract address space; the `next_free` link is represented
by the position in its free list, and `magic` is the fixed constant on
every well-formed header. `size_class` is spelled `sizeClass`. -/
structure Block where
  addr : Nat
  size : Nat
  sizeClass : Nat
  is_free : Bool
deriving Repr, DecidableEq

/-- Model of `MemoryPool::Chunk` (`memory_pool.cpp:34-78`): a page-aligned OS
mapping. -/
structure Chunk where
  base : Nat
  size : Nat
  used : Nat
  is_arena_chunk : Bool
deriving Repr, DecidableEq

/-- The `MemoryPool` state (`memory_pool.h:20-52`). `free_lists_` is one
list of blocks per size class (head = most recently pushed). `os_maps`
is the oracle of outcomes for successive `mmap` calls: `some base`
succeeds with that page-aligned base address, `none` is `MAP_FAILED`. -/
structure MemoryPool where
  free_lists : List (List Block)
  chunks : List Chunk
  default_chunk_size : Nat
  total_allocated : Nat
  total_free : Nat
  allocation_count : Nat
  deallocation_count : Nat
  os_maps : List (Option Nat)
deriving Repr, DecidableEq

/-- The class-selection loop of `get_size_class`
(`memory_pool.cpp:129-135`): doubling `current_class_size` for
`sc = 0 .. NUM_SIZE_CLASSES-2`, falling through to the largest class. -/
def sizeClassLoop (size : Nat) : Nat → Nat → Nat → Nat
  | 0, _, _ => NUM_SIZE_CLASSES - 1
  | fuel + 1, sc, current =>
      if size ≤ current then sc
      else sizeClassLoop size fuel (sc + 1) (current * 2)

/-- Model of `MemoryPool::get_size_class` (`memory_pool.cpp:118-137`), spelled
`get_sizeClass`. -/
def get_sizeClass (size : Nat) : Nat :=
  if size = 0 then 0
  else if size < MIN_ALLOCATION_SIZE then 0
  else sizeClassLoop size (NUM_SIZE_CLASSES - 1) 0 MIN_ALLOCATION_SIZE

/-- Model of `MemoryPool::get_size_for_class` (`memory_pool.cpp:139-148`), spelled
`get_size_for_sizeClass`. -/
def get_size_for_sizeClass (sizeClass0 : Nat) : Nat :=
  let sc := if NUM_SIZE_CLASSES ≤ sizeClass0 then NUM_SIZE_CLASSES - 1 else sizeClass0
  MIN_ALLOCATION_SIZE <<< sc

/-- Model of `MemoryPool::add_block_to_free_list` (`memory_pool.cpp:187-199`):
mark free and push at the head of its (clamped) class list. -/
def add_block_to_free_list (p : MemoryPool) (block : Block) : MemoryPool :=
  let block2 := { block with is_free := true }
  let sc := min block2.sizeClass (NUM_SIZE_CLASSES - 1)
  { p with free_lists := p.free_lists.set sc (block2 :: p.free_lists.getD sc []) }

/-- Model of `MemoryPool::split_block` (`memory_pool.cpp:229-263`): split off a
remainder block when it can host a header plus the minimum allocation,
otherwise hand out the whole block. (The C++ `size_t` subtraction
`block->size - required_data_size` is `Nat` subtraction here; on the
paths the pool exercises the block is at least as large as the
request.) -/
def split_block (p : MemoryPool) (block_to_split : Block)
    (required_data_size : Nat) : Block × MemoryPool :=
  let remaining := block_to_split.size - required_data_size
  if sizeofBlock + MIN_ALLOCATION_SIZE ≤ remaining then
    let remainder : Block :=
      { addr := block_to_split.addr + sizeofBlock + required_data_size,
        size := remaining - sizeofBlock,
        sizeClass := get_sizeClass (remaining - sizeofBlock),
        is_free := true }
    ({ block_to_split with
        size := required_data_size,
        sizeClass := get_sizeClass required_data_size,
        is_free := false },
      add_block_to_free_list p remainder)
  else
    ({ block_to_split with is_free := false }, p)

/-- The larger-class search loop of `allocate_from_size_class`
(`memory_pool.cpp:214-224`); fuel bounds the `larger_sc` scan, which
visits at most `NUM_SIZE_CLASSES` classes. -/
def searchLarger (p : MemoryPool) (sc : Nat) : Nat → Nat → Option Block × MemoryPool
  | 0, _ => (none, p)
  | fuel + 1, larger =>
      if NUM_SIZE_CLASSES ≤ larger then (none, p)
      else
        match p.free_lists.getD larger [] with
        | large_block :: rest =>
            let p2 := { p with free_lists := p.free_lists.set larger rest }
            let out := split_block p2 large_block (get_size_for_sizeClass sc)
            (some out.1, out.2)
        | [] => searchLarger p sc fuel (larger + 1)

/-- Model of `MemoryPool::allocate_from_size_class` (`memory_pool.cpp:202-226`),
spelled `allocate_from_sizeClass`: pop the head of the per-class free
list, else split a block from the first non-empty larger class. -/
def allocate_from_sizeClass (p : MemoryPool) (sc : Nat) : Option Block × MemoryPool :=
  if NUM_SIZE_CLASSES ≤ sc then (none, p)
  else
    match p.free_lists.getD sc [] with
    | block :: rest =>
        (some { block with is_free := false },
          { p with free_lists := p.free_lists.set sc rest })
    | [] => searchLarger p sc NUM_SIZE_CLASSES (sc + 1)

/-- Model of `MemoryPool::add_chunk` (`memory_pool.cpp:150-185`). A failed `mmap`
makes the `Chunk` constructor throw `std::bad_alloc`
(`memory_pool.cpp:45-48`), modelled as `Except.error`; `add_chunk` has
no handler, so the error propagates. -/
def add_chunk (p : MemoryPool) (min_data_size : Nat) : Except Unit MemoryPool :=
  let size_for_block_and_data := min_data_size + sizeofBlock
  let chunk_size := align_up (max size_for_block_and_data p.default_chunk_size) page_size
  match p.os_maps with
  | [] => Except.error ()
  | none :: _ => Except.error ()
  | some base :: rest =>
      if chunk_size < sizeofBlock then Except.error ()
      else
        let chunk : Chunk :=
          { base := base, size := chunk_size, used := chunk_size, is_arena_chunk := false }
        let initial_block : Block :=
          { addr := base, size := chunk_size - sizeofBlock,
            sizeClass := get_sizeClass (chunk_size - sizeofBlock), is_free := true }
        let p2 := add_block_to_free_list { p with os_maps := rest } initial_block
        Except.ok { p2 with chunks := p2.chunks ++ [chunk],
                            total_free := p2.total_free + (chunk_size - sizeofBlock) }

/-- Model of `std::align(alignment, size, ptr, space)` on the data area of the block. -/
def std_align (alignment size addr space : Nat) : Option Nat :=
  let aligned := align_up addr alignment
  if aligned + size ≤ addr + space then some aligned else none

/-- The tail of `MemoryPool::allocate` after a block has been obtained
(`memory_pool.cpp:296-321`): align the data pointer inside the block,
giving the block back on (unexpected) alignment failure, otherwise
update the statistics and return the aligned user pointer. -/
def allocateFinish (p : MemoryPool) (size_bytes a : Nat) (block : Block) :
    Option Nat × MemoryPool :=
  match std_align a size_bytes (block.addr + sizeofBlock) block.size with
  | none => (none, add_block_to_free_list p { block with is_free := true })
  | some user_ptr =>
      (some user_ptr,
        { p with total_allocated := p.total_allocated + block.size,
                 total_free := if block.size ≤ p.total_free
                   then p.total_free - block.size else 0,
                 allocation_count := p.allocation_count + 1 })

/-- Model of `MemoryPool::allocate` (`memory_pool.cpp:266-322`). The result is
`Except.error ()` when `std::bad_alloc` thrown inside `add_chunk`
escapes, `Except.ok (none, _)` for a null return, and
`Except.ok (some ptr, _)` for a successful allocation. -/
def allocate (p : MemoryPool) (size_bytes alignment_bytes : Nat) :
    Except Unit (Option Nat × MemoryPool) :=
  if size_bytes = 0 then Except.ok (none, p)
  else
    let a0 := if is_power_of_two alignment_bytes then alignment_bytes
      else if is_power_of_two MIN_ALLOCATION_SIZE then MIN_ALLOCATION_SIZE else 64
    let effective_size_needed := size_bytes + a0 - 1
    let sc := get_sizeClass effective_size_needed
    match allocate_from_sizeClass p sc with
    | (some block, p2) => Except.ok (allocateFinish p2 size_bytes a0 block)
    | (none, p2) =>
        match add_chunk p2 (sizeofBlock + effective_size_needed) with
        | Except.error e => Except.error e
        | Except.ok p3 =>
            match allocate_from_sizeClass p3 sc with
            | (none, p4) => Except.ok (none, p4)
            | (some block, p4) => Except.ok (allocateFinish p4 size_bytes a0 block)

/-- With every free list empty, the larger-class scan finds nothing and
leaves the pool untouched. -/
theorem searchLarger_empty (p : MemoryPool) (hempty : ∀ l ∈ p.free_lists, l = [])
    (sc : Nat) : ∀ fuel larger, searchLarger p sc fuel larger = (none, p) := by
  intro fuel
  induction fuel with
  | zero => intro larger; rfl
  | succ fuel ih =>
      intro larger
      rw [searchLarger]
      by_cases h : NUM_SIZE_CLASSES ≤ larger
      · rw [if_pos h]
      · rw [if_neg h]
        have hget : p.free_lists.getD larger [] = [] := by
          rcases Nat.lt_or_ge larger p.free_lists.length with hlt | hge
          · refine hempty _ ?_
            rw [List.getD_eq_getElem?_getD, List.getElem?_eq_getElem hlt]
            exact List.getElem_mem hlt
          · rw [List.getD_eq_getElem?_getD, List.getElem?_eq_none hge]
            rfl
        rw [hget]
        exact ih (larger + 1)

/-- With every free list empty, `allocate_from_size_class` fails and
leaves the pool untouched. -/
theorem allocate_from_sizeClass_empty (p : MemoryPool)
    (hempty : ∀ l ∈ p.free_lists, l = []) (sc : Nat) :
    allocate_from_sizeClass p sc = (none, p) := by
  unfold allocate_from_sizeClass
  by_cases h : NUM_SIZE_CLASSES ≤ sc
  · rw [if_pos h]
  · rw [if_neg h]
    have hget : p.free_lists.getD sc [] = [] := by
      rcases Nat.lt_or_ge sc p.free_lists.length with hlt | hge
      · refine hempty _ ?_
        rw [List.getD_eq_getElem?_getD, List.getElem?_eq_getElem hlt]
        exact List.getElem_mem hlt
      · rw [List.getD_eq_getElem?_getD, List.getElem?_eq_none hge]
        rfl
    rw [hget]
    exact searchLarger_empty p hempty sc NUM_SIZE_CLASSES (sc + 1)

/-- C2 (code bug in the source): when no free list holds a block and the
OS cannot map a new chunk, `allocate` does not return a null pointer —
the `std::bad_alloc` thrown by the `Chunk` constructor propagates out of
`allocate`, contradicting the claim (and the documented contract of
the function); `allocate_arena` by contrast catches it and returns
null. -/
theorem allocate_throws_on_map_failure (p : MemoryPool) (s a : Nat)
    (hs : 0 < s) (ha : is_power_of_two a = true)
    (hempty : ∀ l ∈ p.free_lists, l = [])
    (hos : p.os_maps = [] ∨ ∃ rest, p.os_maps = none :: rest) :
    allocate p s a = Except.error () := by
  unfold allocate
  rw [if_neg (by omega)]
  rw [show (if is_power_of_two a = true then a
      else if is_power_of_two MIN_ALLOCATION_SIZE = true
        then MIN_ALLOCATION_SIZE else 64) = a from by rw [ha, if_pos rfl]]
  dsimp only
  rw [allocate_from_sizeClass_empty p hempty]
  have hmap : add_chunk p (sizeofBlock + (s + a - 1)) = Except.error () := by
    unfold add_chunk
    rcases hos with hnil | ⟨rest, hcons⟩
    · rw [hnil]
    · rw [hcons]
  dsimp only
  rw [hmap]

/-- Witness for `allocate_throws_on_map_failure` at a concrete pool with
empty free lists and a failing `mmap`. -/
theorem allocate_throws_on_map_failure_witness :
    allocate
      { free_lists := List.replicate 16 [], chunks := [],
        default_chunk_size := 16 * 1024 * 1024, total_allocated := 0,
        total_free := 0, allocation_count := 0, deallocation_count := 0,
        os_maps := [none] } 200 64 = Except.error () :=
  allocate_throws_on_map_failure _ 200 64 (by decide) (by decide)
    (by decide) (Or.inr ⟨[], rfl⟩)

/-- C9 (confirmed): `allocate` with a zero request returns a null pointer
immediately and leaves the whole pool state — free lists, counters,
totals — unchanged, for every alignment. -/
theorem allocate_zero_size (p : MemoryPool) (alignment_bytes : Nat) :
    allocate p 0 alignment_bytes = Except.ok (none, p) := by
  unfold allocate
  rw [if_pos rfl]

end Pool

end Core

end Alaris
